import Mathlib

/-!
Verification of the docxsmith repository (Go) against its specification.

This file shallowly embeds the parts of the source that the claims C1-C10
touch:

* the docx document model (package docx: document struct, paragraphs, runs,
  text fragments; creator.go New/Clone; the image subsystem of table.go),
* the templating engine (template.go, loops.go, conditionals.go),
* the paragraph-level diff (pkg/diff: computeDiff, calculateStats),
* the merge/split operations (pkg/operations/merge.go, split.go).

Conventions of the embedding:

* Go byte slices are `List Nat`.  Go strings are Lean `String`s; the string
  helpers the source uses (strings.Contains, strings.ReplaceAll,
  strings.Split, strings.TrimSpace, strconv.Itoa and the two regular
  expressions of the template engine) are implemented here as executable
  functions over `List Char`, faithful to the Go semantics on the ASCII
  inputs the code handles.  Several scanners take an explicit fuel argument
  (always instantiated with the length of the scanned list, which bounds the
  number of scanning steps) so that every definition is structurally
  recursive and reduces inside the kernel.
* Go `interface{}` values are the inductive `GoValue`; `nil` is `GoValue.nil`
  and Go's dynamic-type-sensitive interface comparison is spelled out where
  the source relies on it (evaluateCondition).
* fallible Go functions return `Except String`.
-/

namespace DocxSmith

/-! ## Character and string helpers (Go strings/strconv/regexp subset) -/

/-- Open curly brace character (written via its code point). -/
def braceO : Char := '\x7b'

/-- Close curly brace character (written via its code point). -/
def braceC : Char := '\x7d'

/-- Word characters of the template-engine regexes: the character class
`[a-zA-Z0-9_]` used by `replaceParagraphVariables`, `processLoop` and
`processConditional`. -/
def isWordChar (c : Char) : Bool :=
  (('a' ≤ c && c ≤ 'z') || ('A' ≤ c && c ≤ 'Z') || ('0' ≤ c && c ≤ '9') || c = '_')

/-- Whitespace class `\s` of Go's regexp: `[\t\n\f\r ]`. -/
def goIsSpace (c : Char) : Bool :=
  (c = ' ' || c = '\t' || c = '\n' || c = '\x0c' || c = '\r')

/-- `strings.Contains` on character lists: some suffix of `l` starts with
`pat` (Go returns true for the empty pattern, as does this definition). -/
def containsList (pat : List Char) : List Char → Bool
  | [] => pat.isPrefixOf []
  | c :: cs => pat.isPrefixOf (c :: cs) || containsList pat cs

/-- `strings.Contains(s, pat)`. -/
def goContains (s pat : String) : Bool :=
  containsList pat.data s.data

/-- One digit character, for `strconv.Itoa`. -/
def digitChar (n : Nat) : Char :=
  match n with
  | 0 => '0' | 1 => '1' | 2 => '2' | 3 => '3' | 4 => '4'
  | 5 => '5' | 6 => '6' | 7 => '7' | 8 => '8' | 9 => '9'
  | _ => '*'

/-- Decimal digits of a natural number, most significant first: the result of
Go's `strconv.Itoa` on a non-negative `int`. -/
def natDigits (n : Nat) : List Char :=
  if _h : n < 10 then [digitChar n]
  else natDigits (n / 10) ++ [digitChar (n % 10)]
decreasing_by exact Nat.div_lt_self (by omega) (by omega)

/-- `strconv.Itoa` for non-negative values. -/
def natRepr (n : Nat) : String :=
  String.mk (natDigits n)

/-- `strconv.Itoa` / `fmt.Sprint` on a Go `int`. -/
def intRepr (n : Int) : String :=
  if n < 0 then "-" ++ natRepr n.natAbs else natRepr n.natAbs

/-- `strings.TrimSpace` (the source only ever trims ASCII whitespace). -/
def goTrimSpace (s : String) : String :=
  String.mk (((s.data.dropWhile goIsSpace).reverse.dropWhile goIsSpace).reverse)

/-- `strings.Split(s, ".")`: split a character list at every dot. -/
def splitOnDotsAux (acc : List Char) : List Char → List (List Char)
  | [] => [acc.reverse]
  | c :: cs => if c = '.' then acc.reverse :: splitOnDotsAux [] cs
               else splitOnDotsAux (c :: acc) cs

/-- `strings.Split(key, ".")` as used by getValueFromData. -/
def splitOnDots (s : String) : List String :=
  (splitOnDotsAux [] s.data).map String.mk

/-- `strings.ReplaceAll` on character lists, fuelled by the length of the
scanned list (one fuel unit per character position; `replaceAll` below
supplies enough fuel).  A non-empty pattern is replaced at every
non-overlapping occurrence, scanning left to right, exactly as in Go.  The
source never calls ReplaceAll with an empty pattern. -/
def replaceAllAux (pat rep : List Char) : Nat → List Char → List Char
  | _, [] => []
  | 0, l => l
  | fuel + 1, c :: cs =>
    if pat ≠ [] && pat.isPrefixOf (c :: cs) then
      rep ++ replaceAllAux pat rep fuel ((c :: cs).drop pat.length)
    else
      c :: replaceAllAux pat rep fuel cs

/-- `strings.ReplaceAll(s, pat, rep)`. -/
def replaceAll (s pat rep : String) : String :=
  String.mk (replaceAllAux pat.data rep.data s.data.length s.data)

/-! ## Go values (`interface{}`) and template data -/

/-- A Go `interface{}` value of one of the shapes the template engine
inspects.  Constructors record the dynamic type, which matters for the
interface comparisons in `evaluateCondition`.  Floating-point payloads are
carried as exact rationals (every finite float is one; NaN is not modelled).
Maps (`map[string]interface{}` and `template.Data`, which behave identically
in every switch of the source) are association lists; `structv` stands for a
struct value whose exported fields are read through reflection. -/
inductive GoValue where
  | nil
  | bool (b : Bool)
  | str (s : String)
  | int (n : Int)
  | int8 (n : Int)
  | int16 (n : Int)
  | int32 (n : Int)
  | int64 (n : Int)
  | uint (n : Nat)
  | uint8 (n : Nat)
  | uint16 (n : Nat)
  | uint32 (n : Nat)
  | uint64 (n : Nat)
  | float32 (q : ℚ)
  | float64 (q : ℚ)
  | map (entries : List (String × GoValue))
  | structv (fields : List (String × GoValue))
  | list (elems : List GoValue)

/-- `template.Data` (`map[string]interface{}`) as an association list with
the keys kept distinct by `assocSet`. -/
def Data := List (String × GoValue)

/-- Map lookup. -/
def assocLookup (es : List (String × GoValue)) (k : String) : Option GoValue :=
  match es.find? (fun p => p.1 = k) with
  | some p => some p.2
  | none => none

/-- Map update `m[k] = v`: replace the binding if the key is present,
otherwise add it. -/
def assocSet (es : List (String × GoValue)) (k : String) (v : GoValue) :
    List (String × GoValue) :=
  if es.any (fun p => p.1 = k) then
    es.map (fun p => if p.1 = k then (k, v) else p)
  else es ++ [(k, v)]

/-! ## evaluateCondition (pkg/template/conditionals.go)

The Go source reads:

  switch v := value.(type) {
  case bool: return v
  case string: return v != "" && v != "false" && v != "0"
  case int, int8, int16, int32, int64: return v != 0
  case uint, uint8, uint16, uint32, uint64: return v != 0
  case float32, float64: return v != 0.0
  default: return true
  }

In a type-switch case listing SEVERAL types the variable `v` keeps the type
of the switch expression, `interface{}`.  `v != 0` therefore compares two
interface values: `v`, and the untyped constant `0` converted at its default
type `int` (resp. `0.0` at `float64`).  Interface values are equal only when
their dynamic types are identical and their payloads are equal, so the
comparison yields `false` (hence the function yields `true`) for every value
whose dynamic type is not exactly `int` (resp. `float64`), regardless of the
payload.  The translation below spells this out per constructor. -/

def evaluateCondition : GoValue → Bool
  | .nil => false
  | .bool b => b
  | .str s => !(s = "" || s = "false" || s = "0")
  | .int n => !(n = 0)
  | .int8 _ => true
  | .int16 _ => true
  | .int32 _ => true
  | .int64 _ => true
  | .uint _ => true
  | .uint8 _ => true
  | .uint16 _ => true
  | .uint32 _ => true
  | .uint64 _ => true
  | .float64 q => !(q = 0)
  | .float32 _ => true
  | .map _ => true
  | .structv _ => true
  | .list _ => true

/-! ## The docx document model (package docx)

The current `Document`/`Run` struct declarations (the file declaring
`nextImageID`, `nextRelationshipID` and `Run.Drawing`) are referenced by
creator.go, table.go and image_test.go; the structures below follow those
uses.  In Go, struct fields that no constructor assigns hold their zero
value, so the two counters of a freshly built `Document` literal are `0`. -/

/-- A `w:t` text fragment: `xml:space` attribute and character payload. -/
structure TextFrag where
  space : String
  content : String
deriving DecidableEq, Repr

/-- `RProps`: run formatting (bold/italic presence, size and color values). -/
structure RProps where
  bold : Bool
  italic : Bool
  size : Option String
  color : Option String
deriving DecidableEq, Repr

/-- Paragraph spacing attribute values. -/
structure SpacingV where
  before : String
  after : String
  line : String
deriving DecidableEq, Repr

/-- `PProps`: paragraph style name, justification and spacing. -/
structure PProps where
  style : Option String
  jc : Option String
  spacing : Option SpacingV
deriving DecidableEq, Repr

/-- The data of an inline `Drawing` that the image claims inspect: the
relationship number K embedded as `r:embed="rIdK"` in the Blip, the image
number used for `DocPr.ID`, and the extension of the stored media file
(recoverable in the source from the `CNvPr` name, which is the base name of
the supplied image path). -/
structure DrawingRef where
  embedNum : Nat
  imgId : Nat
  ext : String
deriving DecidableEq, Repr

/-- A `w:r` run. -/
structure Run where
  props : Option RProps
  text : List TextFrag
  tab : Option Unit
  brk : Option Unit
  drawing : Option DrawingRef
deriving DecidableEq, Repr

/-- A `w:p` paragraph. -/
structure Paragraph where
  runs : List Run
  props : Option PProps
deriving DecidableEq, Repr

/-- The paragraph built by `Document.AddParagraph(text)` (document.go): one
run holding one space-preserving text fragment. -/
def textParagraph (s : String) : Paragraph :=
  { runs := [{ props := none, text := [{ space := "preserve", content := s }],
               tab := none, brk := none, drawing := none }],
    props := none }

/-- `extractParagraphText`: concatenation of every fragment of every run. -/
def extractParagraphText (p : Paragraph) : String :=
  p.runs.foldl (fun acc r => r.text.foldl (fun a t => a ++ t.content) acc) ""

/-- `isParagraphEmpty`: the concatenated text trims to the empty string. -/
def isParagraphEmpty (p : Paragraph) : Bool :=
  goTrimSpace (extractParagraphText p) = ""

/-! ## Template engine: value access (template.go) -/

/-- A short description standing in for Go's `%T` type formatting inside one
error message; its exact spelling is irrelevant to every claim. -/
def goTypeName : GoValue → String
  | .nil => "<nil>"
  | .bool _ => "bool"
  | .str _ => "string"
  | .int _ => "int"
  | .int8 _ => "int8"
  | .int16 _ => "int16"
  | .int32 _ => "int32"
  | .int64 _ => "int64"
  | .uint _ => "uint"
  | .uint8 _ => "uint8"
  | .uint16 _ => "uint16"
  | .uint32 _ => "uint32"
  | .uint64 _ => "uint64"
  | .float32 _ => "float32"
  | .float64 _ => "float64"
  | .map _ => "map[string]interface \x7b\x7d"
  | .structv _ => "struct"
  | .list _ => "[]interface \x7b\x7d"

/-- `fmt.Sprint` on the values the engine substitutes.  Strings, booleans and
integers are printed exactly as Go prints them; the float and composite cases
(never exercised by the claims) approximate Go's `%v` formatting. -/
def goSprint : GoValue → String
  | .nil => "<nil>"
  | .bool b => if b then "true" else "false"
  | .str s => s
  | .int n => intRepr n
  | .int8 n => intRepr n
  | .int16 n => intRepr n
  | .int32 n => intRepr n
  | .int64 n => intRepr n
  | .uint n => natRepr n
  | .uint8 n => natRepr n
  | .uint16 n => natRepr n
  | .uint32 n => natRepr n
  | .uint64 n => natRepr n
  | .float32 q => "float(" ++ intRepr q.num ++ "/" ++ natRepr q.den ++ ")"
  | .float64 q => "float(" ++ intRepr q.num ++ "/" ++ natRepr q.den ++ ")"
  | .map _ => "map[]"
  | .structv _ => "struct[]"
  | .list _ => "[]"

/-- The walk of `getValueFromData` over the dot-separated key components:
maps (both `map[string]interface{}` shapes of the switch) are looked up by
key, struct values have their fields read via reflection, anything else
fails. -/
def walkPath : GoValue → List String → Except String GoValue
  | cur, [] => .ok cur
  | cur, k :: ks =>
    match cur with
    | .map es =>
      match assocLookup es k with
      | some v => walkPath v ks
      | none => .error ("key " ++ k ++ " not found")
    | .structv fs =>
      match assocLookup fs k with
      | some v => walkPath v ks
      | none => .error ("field " ++ k ++ " not found")
    | other => .error ("cannot access key " ++ k ++ " on type " ++ goTypeName other)

/-- `getValueFromData(data, key)`: split the key at dots and walk. -/
def getValueFromData (data : Data) (key : String) : Except String GoValue :=
  walkPath (.map data) (splitOnDots key)

/-- `getFieldValue(item, fieldName)` of loops.go: map and struct items are
looked up by field name, anything else is rejected. -/
def getFieldValue (item : GoValue) (fieldName : String) : Except String GoValue
  :=
  match item with
  | .map es =>
    match assocLookup es fieldName with
    | some v => .ok v
    | none => .error ("field " ++ fieldName ++ " not found")
  | .structv fs =>
    match assocLookup fs fieldName with
    | some v => .ok v
    | none => .error ("field " ++ fieldName ++ " not found")
  | _ => .error "item is not a struct or map"

/-- `toSlice`: only slice/array values are iterable. -/
def toSlice (v : GoValue) : Except String (List GoValue) :=
  match v with
  | .list xs => .ok xs
  | _ => .error "value is not a slice or array"

/-! ## Template engine: directive scanners

The engine uses three regular expressions over a paragraph's concatenated
text. `findVarMatches` mirrors
`regexp.FindAllStringSubmatch` with pattern `\{\{\.([a-zA-Z0-9_]+)\}\}` (note
that the character class has no dot, so a dot-path like `A.B` can never be
captured); `findRangeName` and `findIfName` mirror `FindStringSubmatch` with
patterns `\{\{range\s+\.([a-zA-Z0-9_]+)\}\}` and
`\{\{if\s+\.([a-zA-Z0-9_]+)\}\}`.  All scanners walk the text left to right,
trying each position; the patterns are deterministic (every quantified class
is disjoint from the following literal), so greedy matching is exact. -/

/-- Match the variable pattern at the head of the list: `{{.` then a
non-empty word-character run then `}}`.  Returns the captured name and the
characters following the match. -/
def matchVarAt (l : List Char) : Option (String × List Char) :=
  match l with
  | c1 :: c2 :: c3 :: rest =>
    if c1 = braceO && c2 = braceO && c3 = '.' then
      let name := rest.takeWhile isWordChar
      if name ≠ [] && [braceC, braceC].isPrefixOf (rest.drop name.length) then
        some (String.mk name, (rest.drop name.length).drop 2)
      else none
    else none
  | _ => none

/-- All matches of the variable pattern, in order (fuelled by list length;
each step consumes at least one character). -/
def findVarMatchesAux : Nat → List Char → List String
  | 0, _ => []
  | _, [] => []
  | fuel + 1, c :: cs =>
    match matchVarAt (c :: cs) with
    | some (name, rest) => name :: findVarMatchesAux fuel rest
    | none => findVarMatchesAux fuel cs

/-- All `{{.Name}}` captures of a string, in order. -/
def findVarMatches (s : String) : List String :=
  findVarMatchesAux s.data.length s.data

/-- Match a directive `{{` ++ word ++ `\s+.` ++ name ++ `}}` at the head of
the list, for the given directive word (`range` or `if`). -/
def matchDirectiveAt (word : List Char) (l : List Char) : Option String :=
  if (braceO :: braceO :: word).isPrefixOf l then
    let r := l.drop (word.length + 2)
    let ws := r.takeWhile goIsSpace
    if ws = [] then none
    else
      match r.drop ws.length with
      | '.' :: r2 =>
        let name := r2.takeWhile isWordChar
        if name ≠ [] && [braceC, braceC].isPrefixOf (r2.drop name.length) then
          some (String.mk name)
        else none
      | _ => none
  else none

/-- First match of a directive pattern in the list (fuelled by length). -/
def findDirectiveAux (word : List Char) : Nat → List Char → Option String
  | 0, _ => none
  | _, [] => none
  | fuel + 1, c :: cs =>
    match matchDirectiveAt word (c :: cs) with
    | some name => some name
    | none => findDirectiveAux word fuel cs

/-- The capture of `\{\{range\s+\.([a-zA-Z0-9_]+)\}\}` on a string, if any. -/
def findRangeName (s : String) : Option String :=
  findDirectiveAux "range".data s.data.length s.data

/-- The capture of `\{\{if\s+\.([a-zA-Z0-9_]+)\}\}` on a string, if any. -/
def findIfName (s : String) : Option String :=
  findDirectiveAux "if".data s.data.length s.data

/-! ## Template engine: substitution and rendering (template.go, loops.go,
conditionals.go) -/

/-- `template.RenderOptions`. -/
structure RenderOptions where
  strictMode : Bool
  defaultValue : String
  removeEmptyParagraphs : Bool
deriving DecidableEq, Repr

/-- `template.DefaultOptions()`. -/
def defaultRenderOptions : RenderOptions :=
  { strictMode := false, defaultValue := "", removeEmptyParagraphs := true }

/-- The placeholder string `{{.name}}` (`match[0]` of the variable regex). -/
def varPlaceholder (name : String) : String :=
  String.mk [braceO, braceO, '.'] ++ name ++ String.mk [braceC, braceC]

/-- The placeholder string `{{.Item.field}}` of the loop-variable regex. -/
def itemPlaceholder (field : String) : String :=
  String.mk [braceO, braceO, '.'] ++ "Item." ++ field ++ String.mk [braceC, braceC]

/-- The substitution loop of `replaceParagraphVariables` on one text
fragment: collect the matches of the original content, then for each
captured name replace every occurrence of its placeholder with the printed
looked-up value (or, when the lookup fails, fail in strict mode and use the
configured default otherwise).  Errors are raised only in strict mode. -/
def replaceTextVars (opts : RenderOptions) (data : Data) (content : String) :
    Except String String :=
  (findVarMatches content).foldlM
    (fun acc name =>
      match getValueFromData data name with
      | .ok v => .ok (replaceAll acc (varPlaceholder name) (goSprint v))
      | .error _ =>
        if opts.strictMode then .error ("variable " ++ name ++ " not found")
        else .ok (replaceAll acc (varPlaceholder name) opts.defaultValue))
    content

/-- `replaceParagraphVariables`: substitute inside every fragment of every
run, stopping at the first error (which the source raises only in strict
mode). -/
def replaceParagraphVariables (opts : RenderOptions) (data : Data)
    (p : Paragraph) : Except String Paragraph := do
  let runs ← p.runs.mapM (fun r => do
    let ts ← r.text.mapM (fun t => do
      let c ← replaceTextVars opts data t.content
      pure { t with content := c })
    pure { r with text := ts })
  pure { p with runs := runs }

/-- Match the loop-variable pattern `\{\{\.Item\.([a-zA-Z0-9_]+)\}\}` at the
head of the list: returns the captured field and the rest. -/
def matchItemAt (l : List Char) : Option (String × List Char) :=
  if (braceO :: braceO :: '.' :: "Item.".data).isPrefixOf l then
    let rest := l.drop 8
    let field := rest.takeWhile isWordChar
    if field ≠ [] && [braceC, braceC].isPrefixOf (rest.drop field.length) then
      some (String.mk field, (rest.drop field.length).drop 2)
    else none
  else none

/-- All matches of the loop-variable pattern, in order (fuelled). -/
def findItemMatchesAux : Nat → List Char → List String
  | 0, _ => []
  | _, [] => []
  | fuel + 1, c :: cs =>
    match matchItemAt (c :: cs) with
    | some (field, rest) => field :: findItemMatchesAux fuel rest
    | none => findItemMatchesAux fuel cs

/-- All `{{.Item.Field}}` captures of a string, in order. -/
def findItemMatches (s : String) : List String :=
  findItemMatchesAux s.data.length s.data

/-- The substitution loop of `replaceLoopVariables` on one text fragment:
like `replaceTextVars` but for the `{{.Item.field}}` pattern, resolving the
field against the iteration item. -/
def replaceItemTextVars (opts : RenderOptions) (item : GoValue)
    (content : String) : Except String String :=
  (findItemMatches content).foldlM
    (fun acc field =>
      match getFieldValue item field with
      | .ok v => .ok (replaceAll acc (itemPlaceholder field) (goSprint v))
      | .error _ =>
        if opts.strictMode then
          .error ("field " ++ field ++ " not found in item")
        else .ok (replaceAll acc (itemPlaceholder field) opts.defaultValue))
    content

/-- `replaceLoopVariables`: `{{.Item.field}}` substitution over a
paragraph. -/
def replaceLoopVariables (opts : RenderOptions) (item : GoValue)
    (p : Paragraph) : Except String Paragraph := do
  let runs ← p.runs.mapM (fun r => do
    let ts ← r.text.mapM (fun t => do
      let c ← replaceItemTextVars opts item t.content
      pure { t with content := c })
    pure { r with text := ts })
  pure { p with runs := runs }

/-- `cloneParagraph` of loops.go: copies runs (text fragments and run
properties) and paragraph properties.  The `Tab`, `Break` and `Drawing`
fields of a run are not copied and come out nil. -/
def cloneParagraph (p : Paragraph) : Paragraph :=
  { runs := p.runs.map (fun r =>
      { props := r.props, text := r.text, tab := none, brk := none,
        drawing := none }),
    props := p.props }

/-- The per-iteration data of `processLoop`: `Index` and `Item` are bound
first and then every entry of the outer data except the collection's own key
is copied in, overriding on key collision exactly as the Go map writes do
(the iteration order of the Go map does not affect the resulting map). -/
def mkItemData (data : Data) (collectionName : String) (idx : Nat)
    (item : GoValue) : Data :=
  data.foldl
    (fun acc p => if p.1 = collectionName then acc else assocSet acc p.1 p.2)
    [("Index", .int (Int.ofNat idx)), ("Item", item)]

/-- The token `{{range` that Render searches for. -/
def tokRange : String := String.mk [braceO, braceO] ++ "range"

/-- The token `{{if` that Render searches for. -/
def tokIf : String := String.mk [braceO, braceO] ++ "if"

/-- The token `{{end}}` that the forward scans search for. -/
def tokEnd : String := String.mk [braceO, braceO] ++ "end" ++ String.mk [braceC, braceC]

/-- The token `{{else}}` that the conditional scan searches for. -/
def tokElse : String := String.mk [braceO, braceO] ++ "else" ++ String.mk [braceC, braceC]

/-- Error of processLoop when the forward scan finds no `{{end}}`. -/
def rangeNoEndMsg : String :=
  "no matching " ++ tokEnd ++ " found for " ++ String.mk [braceO, braceO] ++
    "range" ++ String.mk [braceC, braceC]

/-- Error of processConditional when the forward scan finds no `{{end}}`. -/
def ifNoEndMsg : String :=
  "no matching " ++ tokEnd ++ " found for " ++ String.mk [braceO, braceO] ++
    "if" ++ String.mk [braceC, braceC]

/-- Index of the first element satisfying the predicate, if any (the forward
scans of processLoop and processConditional). -/
def findIdxAux {α : Type} (p : α → Bool) : List α → Option Nat
  | [] => none
  | a :: as => if p a then some 0 else (findIdxAux p as).map (fun n => n + 1)

/-- The body of the iteration of `processLoop`: for each element, clone every
template paragraph, substitute `{{.Item.Field}}` against the element and then
the outer variables (plus `{{.Index}}`) against the per-iteration data.
Errors (strict mode only) abort. -/
def runLoopBody (data : Data) (opts : RenderOptions) (collectionName : String)
    (templateParas : List Paragraph) :
    Nat → List GoValue → Except String (List Paragraph)
  | _, [] => .ok []
  | idx, item :: more => do
    let itemData := mkItemData data collectionName idx item
    let ps ← templateParas.mapM (fun tp => do
      let p1 ← replaceLoopVariables opts item (cloneParagraph tp)
      replaceParagraphVariables opts itemData p1)
    let tail ← runLoopBody data opts collectionName templateParas (idx + 1) more
    pure (ps ++ tail)

/-- `processLoop(doc, startIdx, data, opts)` with the paragraph at
`startIdx` passed as `p` and the following paragraphs as `rest`.  The steps
mirror the source in order: parse the directive, resolve the collection
(returning an empty result consuming one paragraph when the collection is
missing in lenient mode — before the `{{end}}` scan), scan forward for
`{{end}}`, check iterability, and iterate.  The returned count is the number
of paragraphs consumed (`endIdx - startIdx + 1`). -/
def processLoop (data : Data) (opts : RenderOptions) (p : Paragraph)
    (rest : List Paragraph) : Except String (List Paragraph × Nat) :=
  let startText := extractParagraphText p
  match findRangeName startText with
  | none => .error ("invalid range directive: " ++ startText)
  | some collectionName =>
    match getValueFromData data collectionName with
    | .error _ =>
      if opts.strictMode then
        .error ("collection " ++ collectionName ++ " not found")
      else .ok ([], 1)
    | .ok collection =>
      match findIdxAux (fun q => goContains (extractParagraphText q) tokEnd) rest with
      | none => .error rangeNoEndMsg
      | some e =>
        let templateParas := rest.take e
        match toSlice collection with
        | .error msg =>
          .error ("collection " ++ collectionName ++ " is not iterable: " ++ msg)
        | .ok xs =>
          match runLoopBody data opts collectionName templateParas 0 xs with
          | .error msg => .error msg
          | .ok result => .ok (result, e + 2)

/-- Clone and substitute each selected branch paragraph of a conditional
(the loop bodies of processConditional). -/
def mapCondParas (data : Data) (opts : RenderOptions) :
    List Paragraph → Except String (List Paragraph)
  | [] => .ok []
  | q :: qs => do
    let p ← replaceParagraphVariables opts data (cloneParagraph q)
    let tail ← mapCondParas data opts qs
    pure (p :: tail)

/-- The scan-and-select part of `processConditional`, given the already
resolved condition value: find the first `{{end}}` (error when absent), the
first `{{else}}` at or before it, evaluate the condition and emit the clone
of the selected branch.  The count consumed is `endIdx - startIdx + 1`. -/
def processCondBranches (data : Data) (opts : RenderOptions)
    (rest : List Paragraph) (condVal : GoValue) :
    Except String (List Paragraph × Nat) :=
  match findIdxAux (fun q => goContains (extractParagraphText q) tokEnd) rest with
  | none => .error ifNoEndMsg
  | some e =>
    let elseIdx := findIdxAux
      (fun q => goContains (extractParagraphText q) tokElse) (rest.take (e + 1))
    if evaluateCondition condVal then
      let content := rest.take (match elseIdx with | some el => el | none => e)
      match mapCondParas data opts content with
      | .error msg => .error msg
      | .ok result => .ok (result, e + 2)
    else
      match elseIdx with
      | some el =>
        let content := (rest.drop (el + 1)).take (e - el - 1)
        match mapCondParas data opts content with
        | .error msg => .error msg
        | .ok result => .ok (result, e + 2)
      | none => .ok ([], e + 2)

/-- `processConditional(doc, startIdx, data, opts)`: parse the `{{if}}`
directive, resolve the condition variable (missing: error in strict mode,
condition `false` in lenient mode), then scan and select. -/
def processConditional (data : Data) (opts : RenderOptions) (p : Paragraph)
    (rest : List Paragraph) : Except String (List Paragraph × Nat) :=
  let startText := extractParagraphText p
  match findIfName startText with
  | none => .error ("invalid if directive: " ++ startText)
  | some conditionName =>
    match getValueFromData data conditionName with
    | .error _ =>
      if opts.strictMode then
        .error ("condition variable " ++ conditionName ++ " not found")
      else processCondBranches data opts rest (.bool false)
    | .ok v => processCondBranches data opts rest v

/-- Wrap of a loop error in Render: `error processing loop at paragraph %d`. -/
def loopWrapMsg (i : Nat) (e : String) : String :=
  "error processing loop at paragraph " ++ natRepr i ++ ": " ++ e

/-- Wrap of a conditional error in Render. -/
def condWrapMsg (i : Nat) (e : String) : String :=
  "error processing conditional at paragraph " ++ natRepr i ++ ": " ++ e

/-- Wrap of a substitution error in Render (strict mode only). -/
def varWrapMsg (i : Nat) (e : String) : String :=
  "error replacing variables in paragraph " ++ natRepr i ++ ": " ++ e

/-- The paragraph pass of `Template.Render`, indexed by Go's loop variable `i`
(the position in the spliced output) and fuelled by the paragraph count
(each step consumes at least one remaining paragraph, so the wrapper's fuel
is never exhausted; the fuel-0 case is unreachable).  A paragraph whose text
contains `{{range` is handed to processLoop and the loop result replaces the
consumed paragraphs, with processing resuming after the inserted result;
likewise for `{{if}}` (the source's `condResult == nil` branch is
unreachable because processConditional always returns a non-nil slice).
Otherwise variables are substituted in place — `replaceParagraphVariables`
raises errors only in strict mode, so propagating its error mirrors the
source's `if opts.StrictMode` guard — and the paragraph is dropped when
`RemoveEmptyParagraphs` is set and it trimmed to nothing.  Render also
clones the document first (see the aliasing model further below) and
processes tables afterwards; the claims verified here concern documents
whose body holds no tables. -/
def renderParasFuel (data : Data) (opts : RenderOptions) :
    Nat → Nat → List Paragraph → Except String (List Paragraph)
  | _, _, [] => .ok []
  | 0, _, paras => .ok paras
  | fuel + 1, i, p :: rest =>
    let text := extractParagraphText p
    if goContains text tokRange then
      match processLoop data opts p rest with
      | .error e => .error (loopWrapMsg i e)
      | .ok (produced, consumed) =>
        if 0 < consumed then
          match renderParasFuel data opts fuel (i + produced.length)
              (rest.drop (consumed - 1)) with
          | .error e => .error e
          | .ok out => .ok (produced ++ out)
        else
          match renderParasFuel data opts fuel (i + 1) rest with
          | .error e => .error e
          | .ok out => .ok (p :: out)
    else if goContains text tokIf then
      match processConditional data opts p rest with
      | .error e => .error (condWrapMsg i e)
      | .ok (produced, consumed) =>
        if 0 < consumed then
          match renderParasFuel data opts fuel (i + produced.length)
              (rest.drop (consumed - 1)) with
          | .error e => .error e
          | .ok out => .ok (produced ++ out)
        else
          match renderParasFuel data opts fuel (i + 1) rest with
          | .error e => .error e
          | .ok out => .ok (p :: out)
    else
      match replaceParagraphVariables opts data p with
      | .error e => .error (varWrapMsg i e)
      | .ok p2 =>
        if opts.removeEmptyParagraphs && isParagraphEmpty p2 then
          renderParasFuel data opts fuel i rest
        else
          match renderParasFuel data opts fuel (i + 1) rest with
          | .error e => .error e
          | .ok out => .ok (p2 :: out)

/-- The paragraph pass of `Template.Render` on a paragraph list. -/
def renderParas (data : Data) (opts : RenderOptions)
    (paras : List Paragraph) : Except String (List Paragraph) :=
  renderParasFuel data opts paras.length 0 paras

/-! ## Clone and Go slice aliasing (creator.go)

`Document.Clone` allocates a fresh paragraph array and then runs
`copy(newDoc.Body.Paragraphs, d.Body.Paragraphs)`.  `copy` duplicates the
`Paragraph` STRUCTS only: each struct holds the slice header of its `Runs`
array, so the copied struct points at the same backing array, and likewise
each `Run` points at the same `Text` backing array.  The files map, in
contrast, is deep-copied byte by byte.  To make that observable, the model
below stores each paragraph's run tree in a heap cell addressed by the
paragraph's slice header; copying a paragraph struct copies the address. -/

/-- Heap of run backing arrays; a Go slice header is an index into it. -/
def RunsHeap := List (List Run)

/-- A `Paragraph` struct as `copy` sees it: the header of its runs array. -/
structure HeapParagraph where
  runsRef : Nat
deriving DecidableEq, Repr

/-- The parts of `Document` that Clone copies. -/
structure HeapDocument where
  filePath : String
  paragraphs : List HeapParagraph
  files : List (String × List Nat)
deriving DecidableEq, Repr

/-- `Document.Clone` (creator.go): a fresh paragraph array receives a struct
copy of every paragraph (same `runsRef` headers — the heap is untouched, no
run array is duplicated), tables likewise, and the files map is copied
entry by entry into fresh byte slices (value equality suffices to model
that). -/
def goClone (d : HeapDocument) : HeapDocument :=
  { filePath := d.filePath,
    paragraphs := d.paragraphs,
    files := d.files }

/-- Update element `i` of a list in place. -/
def listModify {α : Type} (f : α → α) : Nat → List α → List α
  | _, [] => []
  | 0, a :: as => f a :: as
  | n + 1, a :: as => a :: listModify f n as

/-- Set the payload of a text fragment. -/
def fragSetContent (s : String) (t : TextFrag) : TextFrag :=
  { t with content := s }

/-- Set fragment `fragIdx` of a run's text array. -/
def runSetFrag (s : String) (fragIdx : Nat) (r : Run) : Run :=
  { r with text := listModify (fragSetContent s) fragIdx r.text }

/-- The in-place write `text.Content = s` that `replaceParagraphVariables`
performs on fragment `fragIdx` of run `runIdx` of a paragraph whose runs
live in heap cell `ref`: the write lands in the shared backing array. -/
def heapWriteContent (h : RunsHeap) (ref runIdx fragIdx : Nat) (s : String) :
    RunsHeap :=
  listModify (fun cell => listModify (runSetFrag s fragIdx) runIdx cell) ref h

/-- Observing a paragraph's text through the heap. -/
def heapParagraphText (h : RunsHeap) (p : HeapParagraph) : String :=
  extractParagraphText { runs := h.getD p.runsRef [], props := none }

/-! ## The image subsystem state (creator.go New, table.go)

The `Document` fields the image code operates on.  The two XML parts the
code edits as strings are held in parsed form:

* `relEntries` is the entry list of `word/_rels/document.xml.rels`.  The
  source appends `<Relationship Id="rIdK" Type=".../image" Target="..."/>`
  lines before the closing tag; entries are listed in insertion order.
  The guard `strings.Contains(relsStr, relID)` is modelled by
  `relsContainsId` below: in the serialized part the characters `rId` occur
  exactly once per entry (inside `Id="rIdN"`, followed by a quote; neither
  the namespace URIs, nor the XML header, nor the media targets contain
  them), so the string `"rId" ++ Itoa K` occurs in the part iff the digits
  of `K` are a prefix of the digits of some entry's `N`.
* `contentTypeExts` is the list of `<Default Extension="..."
  ContentType="..."/>` entries of `[Content_Types].xml`.  The guard
  `strings.Contains(contentTypesStr, "Extension=\"ext\"")` (closing quote
  included) is exact membership of `ext` among the registered extensions.
* `files` keeps the media payloads of the files map (`word/media/...` keys;
  a Go map, so keys are unique and assignment replaces). -/

/-- One `<Relationship .../>` entry of the document relationship part. -/
structure RelEntry where
  num : Nat
  typ : String
  target : String
deriving DecidableEq, Repr

/-- The relationship type URI the source writes for images. -/
def imageRelType : String :=
  "http://schemas.openxmlformats.org/officeDocument/2006/relationships/image"

/-- The state of `Document` that the image subsystem reads and writes. -/
structure DocxDocument where
  filePath : String
  paragraphs : List Paragraph
  relEntries : List RelEntry
  contentTypeExts : List (String × String)
  files : List (String × List Nat)
  nextRelationshipID : Nat
  nextImageID : Nat
deriving DecidableEq, Repr

/-- `docx.New()` (creator.go): empty body plus the default parts of
`getDefaultDocxFiles` — a content-type manifest with Default entries for
`rels` and `xml`, an empty document relationship part, and no media.  The
struct literal assigns neither counter, so both hold Go's zero value 0. -/
def docxNew : DocxDocument :=
  { filePath := "",
    paragraphs := [],
    relEntries := [],
    contentTypeExts :=
      [("rels", "application/vnd.openxmlformats-package.relationships+xml"),
       ("xml", "application/xml")],
    files := [],
    nextRelationshipID := 0,
    nextImageID := 0 }

/-- `docx.Open(path)` (reader.go): stores every archive entry in the files
map and parses the body of `word/document.xml`.  No statement of the
function touches `nextImageID` or `nextRelationshipID` (in particular
neither `initializeImageID` nor `initializeRelationshipID` is called), so
both counters hold Go's zero value 0 whatever the archive contains.  The
parsed views of the parts and body are taken as parameters. -/
def docxOpen (path : String) (body : List Paragraph) (rels : List RelEntry)
    (cts : List (String × String)) (media : List (String × List Nat)) :
    DocxDocument :=
  { filePath := path,
    paragraphs := body,
    relEntries := rels,
    contentTypeExts := cts,
    files := media,
    nextRelationshipID := 0,
    nextImageID := 0 }

/-- `initializeImageID` (table.go).  Defined by the source but never called
by New, Open or any other function of the repository. -/
def initImageID (d : DocxDocument) : DocxDocument :=
  { d with nextImageID :=
      (d.paragraphs.foldl
        (fun acc p => acc + (p.runs.filter (fun r => r.drawing.isSome)).length)
        0) + 1 }

/-- `initializeRelationshipID` (table.go): one more than the largest `rIdN`
occurring in the relationship part.  Also never called anywhere. -/
def initRelationshipID (d : DocxDocument) : DocxDocument :=
  { d with nextRelationshipID :=
      (d.relEntries.foldl (fun acc e => max acc e.num) 0) + 1 }

/-- `GetImageCount`: runs with a non-nil Drawing. -/
def getImageCount (d : DocxDocument) : Nat :=
  (d.paragraphs.foldl
    (fun acc p => acc + (p.runs.filter (fun r => r.drawing.isSome)).length) 0)

/-- The drawings carried by one paragraph's runs. -/
def paraDrawings (p : Paragraph) : List DrawingRef :=
  p.runs.filterMap (fun r => r.drawing)

/-- All drawings of the body, in order. -/
def drawingsOf (d : DocxDocument) : List DrawingRef :=
  d.paragraphs.flatMap paraDrawings

/-- The `strings.Contains(relsStr, "rId"++Itoa K)` guard of
addImageRelationship, reduced to the entry list as explained above: the
digits of `K` are a prefix of the digits of some entry's number. -/
def relsContainsId (entries : List RelEntry) (k : Nat) : Bool :=
  entries.any (fun e => (natDigits k).isPrefixOf (natDigits e.num))

/-- The MIME table of `registerImageContentType`, with its `image/png`
fallback for unknown extensions. -/
def mimeFor (ext : String) : String :=
  if ext = ".png" then "image/png"
  else if ext = ".jpg" then "image/jpeg"
  else if ext = ".jpeg" then "image/jpeg"
  else if ext = ".gif" then "image/gif"
  else if ext = ".bmp" then "image/bmp"
  else if ext = ".webp" then "image/webp"
  else if ext = ".svg" then "image/svg+xml"
  else if ext = ".ico" then "image/x-icon"
  else if ext = ".tiff" then "image/tiff"
  else if ext = ".tif" then "image/tiff"
  else if ext = ".heic" then "image/heic"
  else if ext = ".heif" then "image/heif"
  else "image/png"

/-- `strings.TrimPrefix(ext, ".")`. -/
def trimDot (ext : String) : String :=
  if ("."
      : String).data.isPrefixOf ext.data then String.mk (ext.data.drop 1)
  else ext

/-- `strings.TrimPrefix(imagePath, "word/")`. -/
def trimWordSlash (p : String) : String :=
  if ("word/" : String).data.isPrefixOf p.data then String.mk (p.data.drop 5)
  else p

/-- `registerImageContentType(ext)`: skip when a `Extension="ext"` entry is
already present, otherwise append a Default entry before the closing tag.
(The fallback that re-creates a missing `[Content_Types].xml` writes the
same default content the model starts from.) -/
def registerImageContentType (d : DocxDocument) (ext : String) :
    DocxDocument :=
  let extNoDot := trimDot ext
  if d.contentTypeExts.any (fun p => p.1 = extNoDot) then d
  else { d with contentTypeExts := d.contentTypeExts ++ [(extNoDot, mimeFor ext)] }

/-- `addImageRelationship(relID, imagePath)`: skip when the relationship id
already occurs in the part, otherwise append an image relationship whose
target drops the `word/` prefix.  (The fallback for a missing relationship
part writes the empty default the model starts from.) -/
def addImageRelationship (d : DocxDocument) (relNum : Nat)
    (imagePath : String) : DocxDocument :=
  if relsContainsId d.relEntries relNum then d
  else { d with relEntries := d.relEntries ++
      [{ num := relNum, typ := imageRelType, target := trimWordSlash imagePath }] }

/-- Files-map assignment `d.files[name] = data` (Go map update). -/
def filesSet (fs : List (String × List Nat)) (name : String)
    (data : List Nat) : List (String × List Nat) :=
  if fs.any (fun p => p.1 = name) then
    fs.map (fun p => if p.1 = name then (name, data) else p)
  else fs ++ [(name, data)]

/-- The media file name `word/media/image%d%s`. -/
def mediaFileName (imageID : Nat) (ext : String) : String :=
  "word/media/image" ++ natRepr imageID ++ ext

/-- The paragraph `createImageParagraph` returns: one run whose Drawing
embeds the relationship id and carries the image id (text, tab and break
nil; width/height only shape EMU strings inside the drawing and are
irrelevant to the state). -/
def imageParagraph (relNum imgId : Nat) (ext : String) : Paragraph :=
  { runs := [{ props := none, text := [], tab := none, brk := none,
               drawing := some { embedNum := relNum, imgId := imgId,
                                 ext := ext } }],
    props := none }

/-- `createImageParagraph` (table.go): allocate one relationship id and one
image id (each counter read once and post-incremented), store the bytes at
`word/media/imageN.ext`, register the content type, add the relationship,
and build the image paragraph. -/
def createImageParagraph (d : DocxDocument) (ext : String)
    (imageData : List Nat) : DocxDocument × Paragraph :=
  let relNum := d.nextRelationshipID
  let d1 := { d with nextRelationshipID := relNum + 1 }
  let imageID := d1.nextImageID
  let d2 := { d1 with nextImageID := imageID + 1 }
  let name := mediaFileName imageID ext
  let d3 := { d2 with files := filesSet d2.files name imageData }
  let d4 := registerImageContentType d3 ext
  let d5 := addImageRelationship d4 relNum name
  (d5, imageParagraph relNum imageID ext)

/-- `isValidImageHeader(header, ext)` (table.go) over the first bytes. -/
def isValidImageHeader (header : List Nat) (ext : String) : Bool :=
  if ext = ".png" then
    decide (8 ≤ header.length) && header.getD 0 0 = 0x89 &&
      header.getD 1 0 = 0x50 && header.getD 2 0 = 0x4E && header.getD 3 0 = 0x47
  else if ext = ".jpg" || ext = ".jpeg" then
    decide (3 ≤ header.length) && header.getD 0 0 = 0xFF &&
      header.getD 1 0 = 0xD8 && header.getD 2 0 = 0xFF
  else if ext = ".gif" then
    decide (6 ≤ header.length) && header.getD 0 0 = 0x47 &&
      header.getD 1 0 = 0x49 && header.getD 2 0 = 0x46 &&
      ((header.getD 3 0 = 0x38 && header.getD 4 0 = 0x37 && header.getD 5 0 = 0x61) ||
       (header.getD 3 0 = 0x38 && header.getD 4 0 = 0x39 && header.getD 5 0 = 0x61))
  else if ext = ".bmp" then
    decide (2 ≤ header.length) && header.getD 0 0 = 0x42 && header.getD 1 0 = 0x4D
  else if ext = ".webp" then
    decide (12 ≤ header.length) && header.getD 0 0 = 0x52 &&
      header.getD 1 0 = 0x49 && header.getD 2 0 = 0x46 && header.getD 3 0 = 0x46 &&
      header.getD 8 0 = 0x57 && header.getD 9 0 = 0x45 &&
      header.getD 10 0 = 0x42 && header.getD 11 0 = 0x50
  else if ext = ".svg" then
    -- `<?xml` or `<svg` after trimming leading whitespace.
    (("<?xml" : String).data.map Char.toNat).isPrefixOf
        ((header.map Char.ofNat).dropWhile goIsSpace |>.map Char.toNat) ||
      (("<svg" : String).data.map Char.toNat).isPrefixOf
        ((header.map Char.ofNat).dropWhile goIsSpace |>.map Char.toNat)
  else if ext = ".ico" then
    decide (4 ≤ header.length) && header.getD 0 0 = 0x00 &&
      header.getD 1 0 = 0x00 && header.getD 2 0 = 0x01 && header.getD 3 0 = 0x00
  else if ext = ".tiff" || ext = ".tif" then
    decide (4 ≤ header.length) &&
      ((header.getD 0 0 = 0x49 && header.getD 1 0 = 0x49) ||
       (header.getD 0 0 = 0x4D && header.getD 1 0 = 0x4D))
  else if ext = ".heic" || ext = ".heif" then
    decide (8 ≤ header.length) && header.getD 4 0 = 0x66 &&
      header.getD 5 0 = 0x74 && header.getD 6 0 = 0x79 && header.getD 7 0 = 0x70
  else false

/-- The supported-extension list of `validateImageFile`. -/
def supportedImageExts : List String :=
  [".png", ".jpg", ".jpeg", ".gif", ".bmp", ".webp", ".svg", ".ico",
   ".tiff", ".tif", ".heic", ".heif"]

/-- `validateImageFile` on already-read bytes: extension in the supported
set, at least 8 bytes, and a matching magic number over the first
`min 12 len` bytes. -/
def validateImageData (ext : String) (imageData : List Nat) : Bool :=
  supportedImageExts.contains ext &&
    decide (8 ≤ min 12 imageData.length) &&
    isValidImageHeader (imageData.take (min 12 imageData.length)) ext

/-- `AddImage` after the file has been read: validate, create the image
paragraph (with all its document effects) and append it.  A validation
failure happens before any mutation, so the document is returned
unchanged. -/
def addImage (d : DocxDocument) (ext : String) (imageData : List Nat) :
    DocxDocument :=
  if validateImageData ext imageData then
    let (d2, p) := createImageParagraph d ext imageData
    { d2 with paragraphs := d2.paragraphs ++ [p] }
  else d

/-- `AddImageAt(index, ...)`: additionally bounds-check the index (before
reading or validating anything) and splice the paragraph in at `index`. -/
def addImageAt (d : DocxDocument) (index : Nat) (ext : String)
    (imageData : List Nat) : DocxDocument :=
  if d.paragraphs.length < index then d
  else if validateImageData ext imageData then
    let (d2, p) := createImageParagraph d ext imageData
    { d2 with paragraphs :=
        d2.paragraphs.take index ++ [p] ++ d2.paragraphs.drop index }
  else d

/-- One image-subsystem call. -/
inductive ImageOp where
  | add (ext : String) (imageData : List Nat)
  | addAt (index : Nat) (ext : String) (imageData : List Nat)

/-- Apply one call; failed calls leave the document unchanged (their checks
precede every mutation). -/
def applyImageOp (d : DocxDocument) : ImageOp → DocxDocument
  | .add ext imageData => addImage d ext imageData
  | .addAt index ext imageData => addImageAt d index ext imageData

/-- Result of `registerImageContentType` on the entry list alone. -/
def ctsAfter (cts : List (String × String)) (ext : String) :
    List (String × String) :=
  if cts.any (fun p => p.1 = trimDot ext) then cts
  else cts ++ [(trimDot ext, mimeFor ext)]

/-- The image-coherence property of claim C2: for every Drawing of the body
there is exactly one relationship entry carrying its rId — of image type,
with target `media/imageN.ext` (the media file name without the `word/`
prefix) — exactly one payload in the files map under `word/media/imageN.ext`,
and a content-type entry for the extension; and both counters strictly
exceed every id in use. -/
def ImageCoherence (d : DocxDocument) : Prop :=
  (∀ dr ∈ drawingsOf d,
    ((d.relEntries.map (fun e => e.num)).count dr.embedNum = 1) ∧
    (∀ e ∈ d.relEntries, e.num = dr.embedNum →
        e.typ = imageRelType ∧
        e.target = trimWordSlash (mediaFileName dr.imgId dr.ext)) ∧
    ((d.files.map (fun p => p.1)).count (mediaFileName dr.imgId dr.ext) = 1) ∧
    (d.contentTypeExts.any (fun p => p.1 = trimDot dr.ext) = true) ∧
    dr.embedNum < d.nextRelationshipID ∧ dr.imgId < d.nextImageID) ∧
  (∀ e ∈ d.relEntries, e.num < d.nextRelationshipID)

/-- The inductive invariant maintained by the image operations, from which
`ImageCoherence` follows. -/
structure DocInv (d : DocxDocument) : Prop where
  relsLt : ∀ e ∈ d.relEntries, e.num < d.nextRelationshipID
  relsNodup : (d.relEntries.map (fun e => e.num)).Nodup
  drawRel : ∀ dr ∈ drawingsOf d, ∃ e ∈ d.relEntries,
    e.num = dr.embedNum ∧ e.typ = imageRelType ∧
    e.target = trimWordSlash (mediaFileName dr.imgId dr.ext)
  drawFile : ∀ dr ∈ drawingsOf d,
    (mediaFileName dr.imgId dr.ext) ∈ d.files.map (fun p => p.1)
  drawCt : ∀ dr ∈ drawingsOf d,
    d.contentTypeExts.any (fun p => p.1 = trimDot dr.ext) = true
  drawImgLt : ∀ dr ∈ drawingsOf d, dr.imgId < d.nextImageID
  filesNodup : (d.files.map (fun p => p.1)).Nodup
  fileFresh : ∀ i, d.nextImageID ≤ i → ∀ e ∈ supportedImageExts,
    mediaFileName i e ∉ d.files.map (fun p => p.1)

/-! ## Paragraph diff (pkg/diff: compare.go) -/

/-- `DiffType`. -/
inductive DiffType where
  | diffNone
  | diffAdded
  | diffDeleted
  | diffModified
deriving DecidableEq, Repr

/-- `Change`: one entry of the change list. -/
structure Change where
  typ : DiffType
  old : String
  new : String
  position : Nat
  context : String
deriving DecidableEq, Repr

/-- `DiffStats`. -/
structure DiffStats where
  totalChanges : Nat
  addedLines : Nat
  deletedLines : Nat
  modifiedLines : Nat
  unchangedLines : Nat
deriving DecidableEq, Repr

/-- `DiffOptions`. -/
structure DiffOptions where
  ignoreWhitespace : Bool
  ignoreCase : Bool
  contextLines : Nat
  minChangeLength : Nat
deriving DecidableEq, Repr

/-- `DiffResult`. -/
structure DiffResult where
  changes : List Change
  stats : DiffStats
  oldDocument : String
  newDocument : String
deriving DecidableEq, Repr

/-- `linesEqual`: equality after optional trimming and lowering (the inputs
of the claims are ASCII, where `String.toLower` agrees with Go). -/
def linesEqual (opts : DiffOptions) (line1 line2 : String) : Bool :=
  let a := if opts.ignoreWhitespace then goTrimSpace line1 else line1
  let b := if opts.ignoreWhitespace then goTrimSpace line2 else line2
  let a := if opts.ignoreCase then a.toLower else a
  let b := if opts.ignoreCase then b.toLower else b
  a = b

/-- The LCS table of `computeDiff` as a recursive function: `dpLCS fuel i j`
is the table entry `dp[i][j]` whenever `i + j ≤ fuel` (every recursive call
lowers `i + j`, so the recurrence below is exactly the fill loop's,
including the zeroed row and column). -/
def dpLCS (opts : DiffOptions) (oldL newL : List String) :
    Nat → Nat → Nat → Nat
  | 0, _, _ => 0
  | fuel + 1, i, j =>
    match i, j with
    | 0, _ => 0
    | _, 0 => 0
    | i' + 1, j' + 1 =>
      if linesEqual opts (oldL.getD i' "") (newL.getD j' "") then
        dpLCS opts oldL newL fuel i' j' + 1
      else
        max (dpLCS opts oldL newL fuel i' (j' + 1))
          (dpLCS opts oldL newL fuel (i' + 1) j')

/-- `dp[i][j]` with sufficient fuel. -/
def dpValue (opts : DiffOptions) (oldL newL : List String) (i j : Nat) : Nat :=
  dpLCS opts oldL newL (i + j) i j

/-- An Added change as computeDiff builds it. -/
def addedChange (line : String) (pos : Nat) : Change :=
  { typ := .diffAdded, old := "", new := line, position := pos, context := "" }

/-- A Deleted change as computeDiff builds it. -/
def deletedChange (line : String) (pos : Nat) : Change :=
  { typ := .diffDeleted, old := line, new := "", position := pos, context := "" }

/-- The backtracking loop of `computeDiff` from `(i, j)` down to `(0, 0)`
(fuelled by `i + j`; each step lowers it).  Equal lines step diagonally and
produce NO change entry; otherwise an Added step is preferred when
`dp[i][j-1] >= dp[i-1][j]` (or the old side is exhausted).  The change
produced at each step is prepended in the source, so the recursive result
comes before it here. -/
def backtrackDiff (opts : DiffOptions) (oldL newL : List String) :
    Nat → Nat → Nat → List Change
  | 0, _, _ => []
  | fuel + 1, i, j =>
    match i, j with
    | 0, 0 => []
    | 0, j' + 1 =>
      backtrackDiff opts oldL newL fuel 0 j' ++ [addedChange (newL.getD j' "") j']
    | i' + 1, 0 =>
      backtrackDiff opts oldL newL fuel i' 0 ++ [deletedChange (oldL.getD i' "") i']
    | i' + 1, j' + 1 =>
      if linesEqual opts (oldL.getD i' "") (newL.getD j' "") then
        backtrackDiff opts oldL newL fuel i' j'
      else if dpValue opts oldL newL (i' + 1) j' ≥ dpValue opts oldL newL i' (j' + 1) then
        backtrackDiff opts oldL newL fuel (i' + 1) j' ++ [addedChange (newL.getD j' "") j']
      else
        backtrackDiff opts oldL newL fuel i' (j' + 1) ++ [deletedChange (oldL.getD i' "") i']

/-- The number of line pairs the backtrack of `computeDiff` steps over
diagonally (pairs it treats as unchanged); same recursion skeleton as
`backtrackDiff`, counting instead of collecting.  These pairs produce no
`Change` entry and are counted nowhere in the source. -/
def matchedCount (opts : DiffOptions) (oldL newL : List String) :
    Nat → Nat → Nat → Nat
  | 0, _, _ => 0
  | fuel + 1, i, j =>
    match i, j with
    | 0, 0 => 0
    | 0, j' + 1 => matchedCount opts oldL newL fuel 0 j'
    | i' + 1, 0 => matchedCount opts oldL newL fuel i' 0
    | i' + 1, j' + 1 =>
      if linesEqual opts (oldL.getD i' "") (newL.getD j' "") then
        matchedCount opts oldL newL fuel i' j' + 1
      else if dpValue opts oldL newL (i' + 1) j' ≥ dpValue opts oldL newL i' (j' + 1) then
        matchedCount opts oldL newL fuel (i' + 1) j'
      else
        matchedCount opts oldL newL fuel i' (j' + 1)

/-- `computeDiff(oldLines, newLines)`. -/
def computeDiff (opts : DiffOptions) (oldL newL : List String) : List Change :=
  backtrackDiff opts oldL newL (oldL.length + newL.length) oldL.length newL.length

/-- `DefaultDiffOptions()`. -/
def defaultDiffOptions : DiffOptions :=
  { ignoreWhitespace := false, ignoreCase := false, contextLines := 3,
    minChangeLength := 1 }

/-- The loop body of `calculateStats`: every change counts toward
TotalChanges; the switch increments AddedLines, DeletedLines or
ModifiedLines — no case of the switch ever increments UnchangedLines. -/
def statsStep (st : DiffStats) (c : Change) : DiffStats :=
  { totalChanges := st.totalChanges + 1,
    addedLines := if c.typ = .diffAdded then st.addedLines + 1 else st.addedLines,
    deletedLines := if c.typ = .diffDeleted then st.deletedLines + 1 else st.deletedLines,
    modifiedLines := if c.typ = .diffModified then st.modifiedLines + 1 else st.modifiedLines,
    unchangedLines := st.unchangedLines }

/-- `calculateStats(changes)`. -/
def calculateStats (changes : List Change) : DiffStats :=
  changes.foldl statsStep
    { totalChanges := 0, addedLines := 0, deletedLines := 0,
      modifiedLines := 0, unchangedLines := 0 }

/-- Number of Added entries of a change list (specification-side counter,
used to state what calculateStats computes). -/
def countAdded : List Change → Nat
  | [] => 0
  | c :: cs => (if c.typ = .diffAdded then 1 else 0) + countAdded cs

/-- Number of Deleted entries of a change list. -/
def countDeleted : List Change → Nat
  | [] => 0
  | c :: cs => (if c.typ = .diffDeleted then 1 else 0) + countDeleted cs

/-- Number of Modified entries of a change list. -/
def countModified : List Change → Nat
  | [] => 0
  | c :: cs => (if c.typ = .diffModified then 1 else 0) + countModified cs

/-- `extractLines(doc)`: one string per paragraph, the concatenation of its
run text (tables ignored). -/
def extractLines (paras : List Paragraph) : List String :=
  paras.map extractParagraphText

/-- `DocxDiffer.Compare` after the two documents are opened: extract the
lines, compute the diff and the stats. -/
def compareDocs (opts : DiffOptions) (oldPath newPath : String)
    (oldParas newParas : List Paragraph) : DiffResult :=
  { changes := computeDiff opts (extractLines oldParas) (extractLines newParas),
    stats := calculateStats
      (computeDiff opts (extractLines oldParas) (extractLines newParas)),
    oldDocument := oldPath,
    newDocument := newPath }

/-! ## Merge and split (pkg/operations) -/

/-- `MergeOptions`. -/
structure MergeOptions where
  addPageBreaks : Bool
  addSeparator : Bool
  separatorText : String
  preserveFormatting : Bool
deriving DecidableEq, Repr

/-- `DefaultMergeOptions()`. -/
def defaultMergeOptions : MergeOptions :=
  { addPageBreaks := true, addSeparator := false, separatorText := "---",
    preserveFormatting := true }

/-- The loop of `MergeDOCX` over the (already opened) input documents,
given whether the current document is the first (`i == 0`): before every
document but the first, with AddSeparator set, a separator paragraph and an
empty paragraph are appended; then the document's paragraphs; after every
document but the last, with AddPageBreaks set, one empty paragraph.  (The
loop also concatenates the inputs' tables, which never contributes to the
paragraph count.) -/
def mergeLoop (opts : MergeOptions) : Bool → List (List Paragraph) → List Paragraph
  | _, [] => []
  | isFirst, d :: rest =>
    (if !isFirst && opts.addSeparator then
        [textParagraph opts.separatorText, textParagraph ""] else [])
      ++ d
      ++ (if !rest.isEmpty && opts.addPageBreaks then [textParagraph ""] else [])
      ++ mergeLoop opts false rest

/-- `MergeDOCX` on the opened inputs: reject an empty input list, then run
the loop starting from the empty body of `docx.New()`. -/
def mergeDOCX (docs : List (List Paragraph)) (opts : MergeOptions) :
    Except String (List Paragraph) :=
  if docs.isEmpty then .error "no input files provided"
  else .ok (mergeLoop opts true docs)

/-- `ParagraphRange` (`Start`/`End`; `End` is a Lean keyword, hence
`endIdx`). -/
structure ParagraphRange where
  start : Nat
  endIdx : Nat
deriving DecidableEq, Repr

/-- The range-building loop of `SplitDOCXByCount`, fuelled by the remaining
iteration count (`fuel = count - i`, so `fuel = 0` after the loop's last
iteration and the `i == count-1` test is `fuel = 1`, matched here after the
pattern split as `fuel = 0`): while `i < count && start < total`, the chunk
ends at `start + parasPerPart - 1`, clamped to `total - 1` and forced to
`total - 1` on the last iteration; the next chunk starts one past it. -/
def splitRangesAux (total pp : Nat) : Nat → Nat → List ParagraphRange
  | 0, _ => []
  | fuel + 1, start =>
    if start < total then
      let e := if fuel = 0 then total - 1 else min (start + pp - 1) (total - 1)
      { start := start, endIdx := e } :: splitRangesAux total pp fuel (e + 1)
    else []

/-- `SplitDOCXByParagraphs` on the opened document: validate every range
(`Start < 0`, `End >= total` and `Start > End` are rejected; the first is
impossible over `Nat`) and emit the inclusive slice for each. -/
def splitDOCXByParagraphs (paras : List Paragraph)
    (ranges : List ParagraphRange) : Except String (List (List Paragraph)) :=
  ranges.mapM (fun r =>
    if r.endIdx < paras.length && r.start ≤ r.endIdx then
      .ok ((paras.drop r.start).take (r.endIdx + 1 - r.start))
    else
      .error ("invalid range [" ++ natRepr r.start ++ ":" ++ natRepr r.endIdx ++
        "], document has " ++ natRepr paras.length ++ " paragraphs"))

/-- `SplitDOCXByCount` on the opened document: positive count required
(`count : Nat` models the non-negative ints; `count <= 0` is `count = 0`),
non-empty document required, chunk size `total / count` rounded up to 1,
then split by the generated ranges. -/
def splitDOCXByCount (paras : List Paragraph) (count : Nat) :
    Except String (List (List Paragraph)) :=
  if count = 0 then .error "count must be positive"
  else if paras.length = 0 then .error "document has no paragraphs"
  else
    let pp0 := paras.length / count
    let pp := if pp0 = 0 then 1 else pp0
    splitDOCXByParagraphs paras (splitRangesAux paras.length pp count 0)

/-- Sum of the paragraph counts of a document list. -/
def sumLens (docs : List (List Paragraph)) : Nat :=
  (docs.map List.length).sum

/-- The unchanged-pair count of a whole comparison (the diagonal steps of
computeDiff's backtrack from `(|old|, |new|)`). -/
def unreportedUnchanged (opts : DiffOptions) (oldL newL : List String) : Nat :=
  matchedCount opts oldL newL (oldL.length + newL.length) oldL.length newL.length

/-- The fixed document used by several concrete evaluations below: one
paragraph whose single run holds the single fragment `Hello {{.Name}}`. -/
def helloTemplate : String :=
  "Hello " ++ varPlaceholder "Name"

/-- Lenient options with empty-paragraph removal off (used by the concrete
evaluations; removal plays no role in the claims exercised with them). -/
def lenientOpts : RenderOptions :=
  { strictMode := false, defaultValue := "", removeEmptyParagraphs := false }

/-- The directive text `{{range .name}}`. -/
def rangeDirText (name : String) : String :=
  String.mk [braceO, braceO] ++ "range ." ++ name ++ String.mk [braceC, braceC]

/-- The directive text `{{if .name}}`. -/
def ifDirText (name : String) : String :=
  String.mk [braceO, braceO] ++ "if ." ++ name ++ String.mk [braceC, braceC]

/-- The one-run paragraph holding `Hello {{.Name}}` for the Clone scenario;
its runs array is heap cell 0. -/
def c1Heap0 : RunsHeap :=
  [[{ props := none,
      text := [{ space := "preserve", content := helloTemplate }],
      tab := none, brk := none, drawing := none }]]

/-- The original document of the Clone scenario: one paragraph whose runs
slice header points at heap cell 0. -/
def c1Doc : HeapDocument :=
  { filePath := "", paragraphs := [{ runsRef := 0 }], files := [] }

/-- Its clone. -/
def c1Clone : HeapDocument := goClone c1Doc

/-- The heap after Render substitutes `{{.Name}}` → `World` through the
CLONE's paragraph: the write
`text.Content = strings.ReplaceAll(text.Content, "{{.Name}}", "World")`
lands in the heap cell the clone's slice header addresses. -/
def c1Heap1 : RunsHeap :=
  heapWriteContent c1Heap0 ((c1Clone.paragraphs.getD 0 { runsRef := 0 }).runsRef)
    0 0 (replaceAll helloTemplate (varPlaceholder "Name") "World")

/-- The dot-path paragraph `{{.A.B}}` of the C5 scenario. -/
def c5ParaAB : Paragraph := textParagraph (varPlaceholder "A.B")

/-- Data in which the dot-path `A.B` resolves to the string `x`. -/
def c5Data : Data := [("A", .map [("B", .str "x")])]

/-- Merge options with separators and page breaks both disabled. -/
def c8Opts : MergeOptions :=
  { addPageBreaks := false, addSeparator := false, separatorText := "---",
    preserveFormatting := true }

/-- A three-paragraph document for the split/merge witness. -/
def c8Paras : List Paragraph :=
  [textParagraph "one", textParagraph "two", textParagraph "three"]

/-- Merge options with the separator enabled (page breaks off). -/
def c10Opts : MergeOptions :=
  { addPageBreaks := false, addSeparator := true, separatorText := "===",
    preserveFormatting := true }

/-- Two single-paragraph documents for the separator-merge witness. -/
def c10Docs : List (List Paragraph) :=
  [[textParagraph "x"], [textParagraph "y"]]

/-- A pre-existing non-image relationship, `rId1 → styles.xml`: every real
document's relationship part carries entries of this kind. -/
def stylesRel : RelEntry :=
  { num := 1,
    typ := "http://schemas.openxmlformats.org/officeDocument/2006/relationships/styles",
    target := "styles.xml" }

/-- A minimal valid PNG payload: the 8-byte magic number. -/
def c2png : List Nat := [137, 80, 78, 71, 13, 10, 26, 10]

/-- A document loaded with Open: empty body, the styles relationship
`rId1`, the default content types, no media.  Open leaves both counters at
Go's zero value 0 (claim C3). -/
def c2OpenDoc : DocxDocument :=
  docxOpen "existing.docx" [] [stylesRel]
    [("rels", "application/vnd.openxmlformats-package.relationships+xml"),
     ("xml", "application/xml")] []

/-- `c2OpenDoc` after one AddImage: relationship id 0 and image id 0 are
allocated (the counters were 0) and the `rId0` entry is appended — the
digits of 0 are a prefix of no existing entry's digits, so the Contains
guard does not fire. -/
def c2D1 : DocxDocument :=
  { filePath := "existing.docx",
    paragraphs := [imageParagraph 0 0 ".png"],
    relEntries := [stylesRel,
      { num := 0, typ := imageRelType, target := "media/image0.png" }],
    contentTypeExts :=
      [("rels", "application/vnd.openxmlformats-package.relationships+xml"),
       ("xml", "application/xml"), ("png", "image/png")],
    files := [("word/media/image0.png", c2png)],
    nextRelationshipID := 1,
    nextImageID := 1 }

/-- `c2D1` after the second AddImage: relationship id 1 collides with the
pre-existing `rId1`, so `addImageRelationship`'s Contains guard skips the
new entry — the second Drawing embeds `rId1`, the styles relationship. -/
def c2Final : DocxDocument :=
  { filePath := "existing.docx",
    paragraphs := [imageParagraph 0 0 ".png", imageParagraph 1 1 ".png"],
    relEntries := [stylesRel,
      { num := 0, typ := imageRelType, target := "media/image0.png" }],
    contentTypeExts :=
      [("rels", "application/vnd.openxmlformats-package.relationships+xml"),
       ("xml", "application/xml"), ("png", "image/png")],
    files := [("word/media/image0.png", c2png),
              ("word/media/image1.png", c2png)],
    nextRelationshipID := 2,
    nextImageID := 2 }

/-! ## Helper lemmas -/

theorem natDigits_lt10 (n : Nat) (h : n < 10) : natDigits n = [digitChar n] := by
  rw [natDigits]
  simp [h]

theorem natDigits_ge10 (n : Nat) (h : ¬ n < 10) :
    natDigits n = natDigits (n / 10) ++ [digitChar (n % 10)] := by
  rw [natDigits]
  simp [h]

theorem natDigits_length_pos (n : Nat) : 1 ≤ (natDigits n).length := by
  by_cases h : n < 10
  · rw [natDigits_lt10 n h]
    simp
  · rw [natDigits_ge10 n h]
    simp

theorem natDigits_length_le (m k : Nat) (h : m ≤ k) :
    (natDigits m).length ≤ (natDigits k).length := by
  induction k using Nat.strong_induction_on generalizing m with
  | _ k ih =>
    by_cases hk : k < 10
    · have hm : m < 10 := by omega
      rw [natDigits_lt10 m hm, natDigits_lt10 k hk]
      simp
    · by_cases hm : m < 10
      · rw [natDigits_lt10 m hm, natDigits_ge10 k hk]
        have := natDigits_length_pos (k / 10)
        simp only [List.length_append, List.length_cons, List.length_nil]
        omega
      · rw [natDigits_ge10 m hm, natDigits_ge10 k hk]
        have hdiv : k / 10 < k := Nat.div_lt_self (by omega) (by omega)
        have := ih (k / 10) hdiv (m / 10) (Nat.div_le_div_right h)
        simp only [List.length_append, List.length_cons, List.length_nil]
        omega

theorem digitChar_inj : ∀ a < 10, ∀ b < 10, digitChar a = digitChar b → a = b := by
  decide

theorem natDigits_inj (m k : Nat) (h : natDigits m = natDigits k) : m = k := by
  induction k using Nat.strong_induction_on generalizing m with
  | _ k ih =>
    by_cases hk : k < 10
    · by_cases hm : m < 10
      · rw [natDigits_lt10 m hm, natDigits_lt10 k hk] at h
        simp only [List.cons.injEq, and_true] at h
        exact digitChar_inj m hm k hk h
      · exfalso
        rw [natDigits_ge10 m hm, natDigits_lt10 k hk] at h
        have h1 := natDigits_length_pos (m / 10)
        have := congrArg List.length h
        simp only [List.length_append, List.length_cons, List.length_nil] at this
        omega
    · by_cases hm : m < 10
      · exfalso
        rw [natDigits_lt10 m hm, natDigits_ge10 k hk] at h
        have h1 := natDigits_length_pos (k / 10)
        have := congrArg List.length h
        simp only [List.length_append, List.length_cons, List.length_nil] at this
        omega
      · rw [natDigits_ge10 m hm, natDigits_ge10 k hk] at h
        have hlen : (natDigits (m / 10)).length = (natDigits (k / 10)).length := by
          have := congrArg List.length h
          simp only [List.length_append, List.length_cons, List.length_nil] at this
          omega
        have hparts := List.append_inj h hlen
        have hdiv : k / 10 < k := Nat.div_lt_self (by omega) (by omega)
        have hq := ih (k / 10) hdiv (m / 10) hparts.1
        have hr : digitChar (m % 10) = digitChar (k % 10) := by
          have h2 := hparts.2
          simp only [List.cons.injEq, and_true] at h2
          exact h2
        have hmod := digitChar_inj (m % 10) (Nat.mod_lt _ (by omega)) (k % 10)
          (Nat.mod_lt _ (by omega)) hr
        omega

theorem natDigits_not_isPrefixOf (m k : Nat) (h : m < k) :
    (natDigits k).isPrefixOf (natDigits m) = false := by
  cases hb : (natDigits k).isPrefixOf (natDigits m)
  · rfl
  · exfalso
    have hpre : natDigits k <+: natDigits m := List.isPrefixOf_iff_prefix.mp hb
    have hlen1 : (natDigits k).length ≤ (natDigits m).length := hpre.length_le
    have hlen2 : (natDigits m).length ≤ (natDigits k).length :=
      natDigits_length_le m k (by omega)
    have heq : natDigits k = natDigits m := hpre.eq_of_length (by omega)
    have := natDigits_inj k m heq
    omega

/-- The relationship-id guard cannot fire for a fresh id exceeding every
existing one. -/
theorem relsContainsId_eq_false (rels : List RelEntry) (k : Nat)
    (h : ∀ e ∈ rels, e.num < k) : relsContainsId rels k = false := by
  unfold relsContainsId
  rw [List.any_eq_false]
  intro e he
  rw [natDigits_not_isPrefixOf e.num k (h e he)]
  simp

/-! ### Image-subsystem helper lemmas (claim C2) -/

theorem digitChar_ne_dot (d : Nat) : digitChar d ≠ '.' := by
  unfold digitChar
  split <;> decide

theorem natDigits_ne_dot (n : Nat) : ∀ c ∈ natDigits n, c ≠ '.' := by
  induction n using Nat.strong_induction_on with
  | _ n ih =>
    by_cases h : n < 10
    · rw [natDigits_lt10 n h]
      intro c hc
      simp only [List.mem_singleton] at hc
      subst hc
      exact digitChar_ne_dot n
    · rw [natDigits_ge10 n h]
      intro c hc
      rcases List.mem_append.mp hc with h1 | h1
      · exact ih (n / 10) (Nat.div_lt_self (by omega) (by omega)) c h1
      · simp only [List.mem_singleton] at h1
        subst h1
        exact digitChar_ne_dot (n % 10)

/-- If a digit block followed by a `.`-headed tail equals another digit
block followed by some tail, the first block is at least as long:
otherwise the longer block would place a digit where the `.` sits. -/
theorem digits_append_len_le (a b : Nat) (x y : List Char)
    (hx : x.head? = some '.')
    (h : natDigits a ++ x = natDigits b ++ y) :
    (natDigits b).length ≤ (natDigits a).length := by
  by_contra hlt
  push_neg at hlt
  cases x with
  | nil => simp at hx
  | cons c t =>
    have hc : c = '.' := by simpa using hx
    subst hc
    have hL : (natDigits a ++ '.' :: t)[(natDigits a).length]? = some '.' := by
      rw [List.getElem?_append_right (Nat.le_refl _)]
      simp
    rw [h, List.getElem?_append_left hlt,
      List.getElem?_eq_getElem hlt] at hL
    have hmem : (natDigits b)[(natDigits a).length] ∈ natDigits b :=
      List.getElem_mem hlt
    have := natDigits_ne_dot b _ hmem
    simp only [Option.some.injEq] at hL
    exact this hL

theorem digits_append_inj (a b : Nat) (x y : List Char)
    (hx : x.head? = some '.') (hy : y.head? = some '.')
    (h : natDigits a ++ x = natDigits b ++ y) : a = b := by
  have h1 := digits_append_len_le a b x y hx h
  have h2 := digits_append_len_le b a y x hy h.symm
  exact natDigits_inj a b (List.append_inj h (by omega)).1

theorem supported_starts_dot :
    ∀ e ∈ supportedImageExts, e.data.head? = some '.' := by
  decide

theorem mediaFileName_inj_id (i j : Nat) (e1 e2 : String)
    (h1 : e1.data.head? = some '.') (h2 : e2.data.head? = some '.')
    (h : mediaFileName i e1 = mediaFileName j e2) : i = j := by
  have hd := congrArg String.data h
  simp only [mediaFileName, natRepr, String.data_append] at hd
  rw [List.append_assoc, List.append_assoc] at hd
  exact digits_append_inj i j e1.data e2.data h1 h2
    (List.append_cancel_left hd)

theorem mediaFileName_fresh (i j : Nat) (e1 e2 : String)
    (he1 : e1 ∈ supportedImageExts) (he2 : e2 ∈ supportedImageExts)
    (hne : i ≠ j) : mediaFileName i e1 ≠ mediaFileName j e2 := by
  intro h
  exact hne (mediaFileName_inj_id i j e1 e2 (supported_starts_dot e1 he1)
    (supported_starts_dot e2 he2) h)

theorem filesSet_fresh (fs : List (String × List Nat)) (name : String)
    (data : List Nat) (h : name ∉ fs.map (fun p => p.1)) :
    filesSet fs name data = fs ++ [(name, data)] := by
  unfold filesSet
  rw [if_neg]
  intro hany
  rw [List.any_eq_true] at hany
  obtain ⟨p, hp, hpe⟩ := hany
  exact h (by
    rw [List.mem_map]
    exact ⟨p, hp, by simpa using hpe⟩)

theorem registerImageContentType_eq (d : DocxDocument) (ext : String) :
    registerImageContentType d ext =
      { d with contentTypeExts := ctsAfter d.contentTypeExts ext } := by
  unfold registerImageContentType ctsAfter
  by_cases h : (d.contentTypeExts.any fun p => p.1 = trimDot ext) = true
  · simp [h]
  · simp [h]

theorem addImageRelationship_eq (d : DocxDocument) (relNum : Nat)
    (path : String) (h : ∀ e ∈ d.relEntries, e.num < relNum) :
    addImageRelationship d relNum path =
      { d with relEntries := d.relEntries ++
          [{ num := relNum, typ := imageRelType,
             target := trimWordSlash path }] } := by
  unfold addImageRelationship
  rw [relsContainsId_eq_false d.relEntries relNum h]
  simp

theorem ctsAfter_mono (cts : List (String × String)) (ext x : String)
    (h : cts.any (fun p => p.1 = x) = true) :
    (ctsAfter cts ext).any (fun p => p.1 = x) = true := by
  unfold ctsAfter
  split
  · exact h
  · rw [List.any_append]
    simp [h]

theorem ctsAfter_self (cts : List (String × String)) (ext : String) :
    (ctsAfter cts ext).any (fun p => p.1 = trimDot ext) = true := by
  unfold ctsAfter
  split
  · assumption
  · rw [List.any_append]
    simp

theorem createImageParagraph_eq (d : DocxDocument) (ext : String)
    (bytes : List Nat)
    (hrels : ∀ e ∈ d.relEntries, e.num < d.nextRelationshipID)
    (hfile : mediaFileName d.nextImageID ext ∉ d.files.map (fun p => p.1)) :
    createImageParagraph d ext bytes =
      ({ d with
          nextRelationshipID := d.nextRelationshipID + 1,
          nextImageID := d.nextImageID + 1,
          files := d.files ++ [(mediaFileName d.nextImageID ext, bytes)],
          contentTypeExts := ctsAfter d.contentTypeExts ext,
          relEntries := d.relEntries ++
            [{ num := d.nextRelationshipID, typ := imageRelType,
               target := trimWordSlash (mediaFileName d.nextImageID ext) }] },
       imageParagraph d.nextRelationshipID d.nextImageID ext) := by
  simp only [createImageParagraph]
  rw [filesSet_fresh _ _ _ hfile]
  rw [registerImageContentType_eq]
  dsimp only
  rw [addImageRelationship_eq]
  intro e he
  dsimp only at he
  exact hrels e he

theorem mem_drawings_concat (paras : List Paragraph) (p : Paragraph)
    (dr : DrawingRef) (h : dr ∈ (paras ++ [p]).flatMap paraDrawings) :
    dr ∈ paras.flatMap paraDrawings ∨ dr ∈ paraDrawings p := by
  simp only [List.flatMap_append, List.mem_append, List.flatMap_cons,
    List.flatMap_nil, List.append_nil] at h
  exact h

theorem mem_drawings_splice (paras : List Paragraph) (p : Paragraph)
    (idx : Nat) (dr : DrawingRef)
    (h : dr ∈ (paras.take idx ++ [p] ++ paras.drop idx).flatMap
      paraDrawings) :
    dr ∈ paras.flatMap paraDrawings ∨ dr ∈ paraDrawings p := by
  simp only [List.flatMap_append, List.mem_append, List.flatMap_cons,
    List.flatMap_nil, List.append_nil] at h
  rcases h with (h | h) | h
  · left
    rw [List.mem_flatMap] at h ⊢
    obtain ⟨q, hq, hdr⟩ := h
    exact ⟨q, List.mem_of_mem_take hq, hdr⟩
  · right
    exact h
  · left
    rw [List.mem_flatMap] at h ⊢
    obtain ⟨q, hq, hdr⟩ := h
    exact ⟨q, List.mem_of_mem_drop hq, hdr⟩

/-- One `createImageParagraph` allocation preserves the invariant, for any
way `ps` of planting the produced paragraph in the body. -/
theorem docInv_create (d : DocxDocument) (ext : String) (bytes : List Nat)
    (hinv : DocInv d) (hext : ext ∈ supportedImageExts)
    (ps : List Paragraph)
    (hps : ∀ dr ∈ ps.flatMap paraDrawings,
        dr ∈ drawingsOf d ∨
          dr = ⟨d.nextRelationshipID, d.nextImageID, ext⟩) :
    DocInv { d with
      paragraphs := ps,
      nextRelationshipID := d.nextRelationshipID + 1,
      nextImageID := d.nextImageID + 1,
      files := d.files ++ [(mediaFileName d.nextImageID ext, bytes)],
      contentTypeExts := ctsAfter d.contentTypeExts ext,
      relEntries := d.relEntries ++
        [{ num := d.nextRelationshipID, typ := imageRelType,
           target := trimWordSlash (mediaFileName d.nextImageID ext) }] } := by
  constructor
  case relsLt =>
    intro e he
    dsimp only at he ⊢
    rcases List.mem_append.mp he with h | h
    · have := hinv.relsLt e h
      omega
    · simp only [List.mem_singleton] at h
      subst h
      dsimp only
      omega
  case relsNodup =>
    dsimp only
    rw [List.map_append, List.nodup_append]
    refine ⟨hinv.relsNodup, by simp, ?_⟩
    intro a ha hb
    simp only [List.map_cons, List.map_nil, List.mem_singleton] at hb
    subst hb
    rw [List.mem_map] at ha
    obtain ⟨e, he, hnum⟩ := ha
    have := hinv.relsLt e he
    omega
  case drawRel =>
    intro dr hdr
    dsimp only [drawingsOf] at hdr
    rcases hps dr hdr with h | h
    · obtain ⟨e, he, hprops⟩ := hinv.drawRel dr h
      exact ⟨e, List.mem_append_left _ he, hprops⟩
    · subst h
      exact ⟨_, List.mem_append_right _ (List.mem_singleton_self _),
        rfl, rfl, rfl⟩
  case drawFile =>
    intro dr hdr
    dsimp only [drawingsOf] at hdr ⊢
    rw [List.map_append]
    rcases hps dr hdr with h | h
    · exact List.mem_append_left _ (hinv.drawFile dr h)
    · subst h
      simp
  case drawCt =>
    intro dr hdr
    dsimp only [drawingsOf] at hdr ⊢
    rcases hps dr hdr with h | h
    · exact ctsAfter_mono _ _ _ (hinv.drawCt dr h)
    · subst h
      exact ctsAfter_self _ _
  case drawImgLt =>
    intro dr hdr
    dsimp only [drawingsOf] at hdr ⊢
    rcases hps dr hdr with h | h
    · have := hinv.drawImgLt dr h
      omega
    · subst h
      dsimp only
      omega
  case filesNodup =>
    dsimp only
    rw [List.map_append, List.nodup_append]
    refine ⟨hinv.filesNodup, by simp, ?_⟩
    intro a ha hb
    simp only [List.map_cons, List.map_nil, List.mem_singleton] at hb
    subst hb
    exact hinv.fileFresh d.nextImageID (Nat.le_refl _) ext hext ha
  case fileFresh =>
    intro i hi e he
    dsimp only at hi ⊢
    rw [List.map_append]
    intro hmem
    rcases List.mem_append.mp hmem with h | h
    · exact hinv.fileFresh i (by omega) e he h
    · simp only [List.map_cons, List.map_nil, List.mem_singleton] at h
      exact mediaFileName_fresh i d.nextImageID e ext he hext (by omega) h

theorem validate_mem_supported (ext : String) (bytes : List Nat)
    (hv : validateImageData ext bytes = true) :
    ext ∈ supportedImageExts := by
  unfold validateImageData at hv
  simp only [Bool.and_eq_true] at hv
  simpa using hv.1.1

theorem paraDrawings_imageParagraph (relNum imgId : Nat) (ext : String) :
    paraDrawings (imageParagraph relNum imgId ext) =
      [⟨relNum, imgId, ext⟩] := rfl

theorem docInv_addImage (d : DocxDocument) (ext : String) (bytes : List Nat)
    (hinv : DocInv d) : DocInv (addImage d ext bytes) := by
  unfold addImage
  by_cases hv : validateImageData ext bytes
  · rw [if_pos hv]
    have hext := validate_mem_supported ext bytes hv
    rw [createImageParagraph_eq d ext bytes hinv.relsLt
      (hinv.fileFresh d.nextImageID (Nat.le_refl _) ext hext)]
    dsimp only
    exact docInv_create d ext bytes hinv hext _
      (by
        intro dr hdr
        rcases mem_drawings_concat _ _ _ hdr with h | h
        · exact Or.inl h
        · right
          rw [paraDrawings_imageParagraph] at h
          simpa using h)
  · rw [if_neg hv]
    exact hinv

theorem docInv_addImageAt (d : DocxDocument) (index : Nat) (ext : String)
    (bytes : List Nat) (hinv : DocInv d) :
    DocInv (addImageAt d index ext bytes) := by
  unfold addImageAt
  by_cases hb : d.paragraphs.length < index
  · rw [if_pos hb]
    exact hinv
  · rw [if_neg hb]
    by_cases hv : validateImageData ext bytes
    · rw [if_pos hv]
      have hext := validate_mem_supported ext bytes hv
      rw [createImageParagraph_eq d ext bytes hinv.relsLt
        (hinv.fileFresh d.nextImageID (Nat.le_refl _) ext hext)]
      dsimp only
      exact docInv_create d ext bytes hinv hext _
        (by
          intro dr hdr
          rcases mem_drawings_splice _ _ _ _ hdr with h | h
          · exact Or.inl h
          · right
            rw [paraDrawings_imageParagraph] at h
            simpa using h)
    · rw [if_neg hv]
      exact hinv

theorem docInv_apply (d : DocxDocument) (op : ImageOp) (hinv : DocInv d) :
    DocInv (applyImageOp d op) := by
  cases op with
  | add ext bytes => exact docInv_addImage d ext bytes hinv
  | addAt index ext bytes => exact docInv_addImageAt d index ext bytes hinv

theorem docInv_foldl (ops : List ImageOp) :
    ∀ d : DocxDocument, DocInv d → DocInv (ops.foldl applyImageOp d) := by
  induction ops with
  | nil => exact fun d h => h
  | cons op rest ih =>
    intro d h
    exact ih (applyImageOp d op) (docInv_apply d op h)

theorem docInv_new : DocInv docxNew := by
  constructor <;> simp [docxNew, drawingsOf]

theorem imageCoherence_of_docInv (d : DocxDocument) (hinv : DocInv d) :
    ImageCoherence d := by
  refine ⟨?_, hinv.relsLt⟩
  intro dr hdr
  obtain ⟨e0, he0, hnum0, htyp0, htgt0⟩ := hinv.drawRel dr hdr
  refine ⟨?_, ?_, ?_, hinv.drawCt dr hdr, ?_, hinv.drawImgLt dr hdr⟩
  · exact List.count_eq_one_of_mem hinv.relsNodup
      (by rw [List.mem_map]; exact ⟨e0, he0, hnum0⟩)
  · intro e he hnum
    have : e = e0 := List.inj_on_of_nodup_map hinv.relsNodup he he0
      (by rw [hnum, hnum0])
    subst this
    exact ⟨htyp0, htgt0⟩
  · exact List.count_eq_one_of_mem hinv.filesNodup (hinv.drawFile dr hdr)
  · have := hinv.relsLt e0 he0
    omega

theorem natDigits_zero : natDigits 0 = ['0'] := by
  rw [natDigits_lt10 0 (by omega)]
  decide

theorem natDigits_one : natDigits 1 = ['1'] := by
  rw [natDigits_lt10 1 (by omega)]
  decide

theorem mfn0 : mediaFileName 0 ".png" = "word/media/image0.png" := by
  simp only [mediaFileName, natRepr, natDigits_zero]
  decide

theorem mfn1 : mediaFileName 1 ".png" = "word/media/image1.png" := by
  simp only [mediaFileName, natRepr, natDigits_one]
  decide

/-- The Contains guard does not fire for the first allocated id 0: the
digit `0` is a prefix of no existing entry's digits. -/
theorem c2guardA : relsContainsId [stylesRel] 0 = false := by
  simp only [relsContainsId, stylesRel, List.any_cons, List.any_nil,
    natDigits_zero, natDigits_one]
  decide

/-- The Contains guard fires for the second allocated id 1: `rId1` already
occurs in the relationship part (the styles entry). -/
theorem c2guardB : relsContainsId [stylesRel,
    { num := 0, typ := imageRelType, target := "media/image0.png" }] 1 =
    true := by
  simp only [relsContainsId, stylesRel, List.any_cons, List.any_nil,
    natDigits_zero, natDigits_one]
  decide

theorem c2step1 : addImage c2OpenDoc ".png" c2png = c2D1 := by
  unfold addImage
  rw [if_pos (show validateImageData ".png" c2png = true from by decide)]
  simp only [createImageParagraph, c2OpenDoc, docxOpen,
    registerImageContentType_eq, addImageRelationship]
  rw [mfn0, c2guardA]
  decide

theorem c2step2 : addImage c2D1 ".png" c2png = c2Final := by
  unfold addImage
  rw [if_pos (show validateImageData ".png" c2png = true from by decide)]
  simp only [createImageParagraph, c2D1,
    registerImageContentType_eq, addImageRelationship]
  rw [mfn1, c2guardB]
  decide

theorem c2final_eq :
    [ImageOp.add ".png" c2png, ImageOp.add ".png" c2png].foldl
      applyImageOp c2OpenDoc = c2Final := by
  show addImage (addImage c2OpenDoc ".png" c2png) ".png" c2png = c2Final
  rw [c2step1, c2step2]

theorem findIdxAux_eq_none_of {α : Type} (p : α → Bool) :
    ∀ l : List α, (∀ x ∈ l, p x = false) → findIdxAux p l = none := by
  intro l
  induction l with
  | nil => intro _; rfl
  | cons a l ih =>
    intro h
    rw [findIdxAux, h a (by simp)]
    simp only [if_false, Bool.false_eq_true]
    rw [ih (fun y hy => h y (by simp [hy]))]
    rfl

theorem matchDirectiveAt_isPrefixOf (word : List Char) (l : List Char)
    (name : String) (h : matchDirectiveAt word l = some name) :
    (braceO :: braceO :: word).isPrefixOf l = true := by
  unfold matchDirectiveAt at h
  split at h
  · assumption
  · exact absurd h (by simp)

theorem containsList_of_findDirective (word : List Char) :
    ∀ fuel l name, findDirectiveAux word fuel l = some name →
      containsList (braceO :: braceO :: word) l = true := by
  intro fuel
  induction fuel with
  | zero => intro l name h; exact absurd h (by simp [findDirectiveAux])
  | succ fuel ih =>
    intro l name h
    cases l with
    | nil => exact absurd h (by simp [findDirectiveAux])
    | cons c cs =>
      rw [findDirectiveAux] at h
      rw [containsList]
      cases hm : matchDirectiveAt word (c :: cs) with
      | some nm =>
        rw [matchDirectiveAt_isPrefixOf word (c :: cs) nm hm]
        simp
      | none =>
        rw [hm] at h
        rw [ih cs name h]
        simp

/-- A paragraph whose text parses as a range directive contains `{{range`. -/
theorem goContains_tokRange_of_findRangeName (s : String) (name : String)
    (h : findRangeName s = some name) : goContains s tokRange = true := by
  have := containsList_of_findDirective "range".data s.data.length s.data name h
  unfold goContains
  have hdata : tokRange.data = braceO :: braceO :: "range".data := rfl
  rw [hdata]
  exact this

/-- A paragraph whose text parses as an if directive contains `{{if`. -/
theorem goContains_tokIf_of_findIfName (s : String) (name : String)
    (h : findIfName s = some name) : goContains s tokIf = true := by
  have := containsList_of_findDirective "if".data s.data.length s.data name h
  unfold goContains
  have hdata : tokIf.data = braceO :: braceO :: "if".data := rfl
  rw [hdata]
  exact this

theorem countAdded_append (l1 l2 : List Change) :
    countAdded (l1 ++ l2) = countAdded l1 + countAdded l2 := by
  induction l1 with
  | nil => simp [countAdded]
  | cons c cs ih => simp [countAdded, ih]; omega

theorem countDeleted_append (l1 l2 : List Change) :
    countDeleted (l1 ++ l2) = countDeleted l1 + countDeleted l2 := by
  induction l1 with
  | nil => simp [countDeleted]
  | cons c cs ih => simp [countDeleted, ih]; omega

theorem statsFoldl (changes : List Change) : ∀ st : DiffStats,
    List.foldl statsStep st changes =
      { totalChanges := st.totalChanges + changes.length,
        addedLines := st.addedLines + countAdded changes,
        deletedLines := st.deletedLines + countDeleted changes,
        modifiedLines := st.modifiedLines + countModified changes,
        unchangedLines := st.unchangedLines } := by
  induction changes with
  | nil => intro st; simp [countAdded, countDeleted, countModified]
  | cons c cs ih =>
    intro st
    rw [List.foldl_cons, ih]
    simp only [statsStep, countAdded, countDeleted, countModified]
    by_cases h1 : c.typ = DiffType.diffAdded <;>
      by_cases h2 : c.typ = DiffType.diffDeleted <;>
        by_cases h3 : c.typ = DiffType.diffModified <;>
          simp [h1, h2, h3] <;> omega

theorem calculateStats_spec (changes : List Change) :
    calculateStats changes =
      { totalChanges := changes.length,
        addedLines := countAdded changes,
        deletedLines := countDeleted changes,
        modifiedLines := countModified changes,
        unchangedLines := 0 } := by
  unfold calculateStats
  rw [statsFoldl]
  simp

/-- Each backtrack step lowers the new-side index by one for an Added
change or an unchanged pair, and the old-side index by one for a Deleted
change or an unchanged pair, so the counts balance against the indices.
The guard values of the `dp` table never matter for this count. -/
theorem backtrack_counts (opts : DiffOptions) (oldL newL : List String) :
    ∀ fuel i j, i + j ≤ fuel →
      countAdded (backtrackDiff opts oldL newL fuel i j)
          + matchedCount opts oldL newL fuel i j = j ∧
      countDeleted (backtrackDiff opts oldL newL fuel i j)
          + matchedCount opts oldL newL fuel i j = i := by
  intro fuel
  induction fuel with
  | zero =>
    intro i j h
    have hi : i = 0 := by omega
    have hj : j = 0 := by omega
    subst hi; subst hj
    simp [backtrackDiff, matchedCount, countAdded, countDeleted]
  | succ fuel ih =>
    intro i j h
    cases i with
    | zero =>
      cases j with
      | zero => simp [backtrackDiff, matchedCount, countAdded, countDeleted]
      | succ j' =>
        have hih := ih 0 j' (by omega)
        simp only [backtrackDiff, matchedCount, countAdded_append, countDeleted_append]
        simp only [countAdded, countDeleted, addedChange]
        simp
        omega
    | succ i' =>
      cases j with
      | zero =>
        have hih := ih i' 0 (by omega)
        simp only [backtrackDiff, matchedCount, countAdded_append, countDeleted_append]
        simp only [countAdded, countDeleted, deletedChange]
        simp
        omega
      | succ j' =>
        by_cases heq : linesEqual opts (oldL.getD i' "") (newL.getD j' "")
        · have hih := ih i' j' (by omega)
          simp only [backtrackDiff, matchedCount, heq, if_true]
          omega
        · by_cases hg : dpValue opts oldL newL (i' + 1) j' ≥ dpValue opts oldL newL i' (j' + 1)
          · have hih := ih (i' + 1) j' (by omega)
            simp only [backtrackDiff, matchedCount, heq, hg, Bool.false_eq_true,
              if_false, if_true, ge_iff_le, countAdded_append, countDeleted_append]
            simp only [countAdded, countDeleted, addedChange]
            simp
            omega
          · have hih := ih i' (j' + 1) (by omega)
            simp only [backtrackDiff, matchedCount, heq, hg, Bool.false_eq_true,
              if_false, ge_iff_le, countAdded_append, countDeleted_append]
            simp only [countAdded, countDeleted, deletedChange]
            simp
            omega

theorem mergeLoop_length (opts : MergeOptions) :
    ∀ (docs : List (List Paragraph)) (isFirst : Bool),
      (mergeLoop opts isFirst docs).length =
        sumLens docs
          + (if opts.addSeparator then 2 else 0) *
              (if isFirst then docs.length - 1 else docs.length)
          + (if opts.addPageBreaks then 1 else 0) * (docs.length - 1) := by
  intro docs
  induction docs with
  | nil => intro isFirst; simp [mergeLoop, sumLens]
  | cons d rest ih =>
    intro isFirst
    rw [mergeLoop]
    simp only [List.length_append, ih false, sumLens, List.map_cons, List.sum_cons]
    cases rest with
    | nil =>
      cases isFirst <;> by_cases hs : opts.addSeparator <;>
        by_cases hpb : opts.addPageBreaks <;>
          simp [hs, hpb, sumLens] <;> omega
    | cons e rest' =>
      cases isFirst <;> by_cases hs : opts.addSeparator <;>
        by_cases hpb : opts.addPageBreaks <;>
          simp [hs, hpb, sumLens] <;> omega

theorem mergeLoop_plain (opts : MergeOptions) (hs : opts.addSeparator = false)
    (hpb : opts.addPageBreaks = false) :
    ∀ (isFirst : Bool) (docs : List (List Paragraph)),
      mergeLoop opts isFirst docs = docs.flatten := by
  intro isFirst docs
  induction docs generalizing isFirst with
  | nil => simp [mergeLoop]
  | cons d rest ih => rw [mergeLoop]; simp [hs, hpb, ih]

theorem splitRangesAux_valid (total pp : Nat) (hpp : 1 ≤ pp) :
    ∀ fuel start, ∀ r ∈ splitRangesAux total pp fuel start,
      r.endIdx < total ∧ r.start ≤ r.endIdx := by
  intro fuel
  induction fuel with
  | zero => intro start r hr; simp [splitRangesAux] at hr
  | succ fuel ih =>
    intro start r hr
    rw [splitRangesAux] at hr
    by_cases hlt : start < total
    · simp only [hlt, if_true, List.mem_cons] at hr
      rcases hr with hr | hr
      · subst hr
        dsimp only
        by_cases hf : fuel = 0
        · simp only [hf, if_true]
          omega
        · simp only [hf, if_false]
          omega
      · exact ih _ r hr
    · simp [hlt] at hr

/-- The ranges of SplitDOCXByCount cover the document: the chunks cut by the
generated ranges concatenate back to the paragraphs from `start` on. -/
theorem splitRangesAux_cover (paras : List Paragraph) (pp : Nat) (hpp : 1 ≤ pp) :
    ∀ fuel start, 1 ≤ fuel → start < paras.length →
      (((splitRangesAux paras.length pp fuel start).map
          (fun r => (paras.drop r.start).take (r.endIdx + 1 - r.start))).flatten)
        = paras.drop start := by
  intro fuel
  induction fuel with
  | zero => intro start h1 _; omega
  | succ fuel ih =>
    intro start _ hst
    rw [splitRangesAux]
    simp only [hst, if_true]
    by_cases hf : fuel = 0
    · subst hf
      simp only [if_true, List.map_cons, List.flatten_cons]
      rw [splitRangesAux]
      have hns : ¬ (paras.length - 1 + 1 < paras.length) := by omega
      simp only [hns, if_false, List.map_nil, List.flatten_nil, List.append_nil]
      have h1 : paras.length - 1 + 1 - start = paras.length - start := by omega
      rw [h1]
      rw [List.take_of_length_le (by simp)]
    · obtain ⟨f', rfl⟩ := Nat.exists_eq_succ_of_ne_zero hf
      simp only [Nat.succ_ne_zero, if_false, List.map_cons, List.flatten_cons]
      set e := min (start + pp - 1) (paras.length - 1) with hedef
      have hse : start ≤ e := by omega
      have helt : e < paras.length := by omega
      by_cases hnext : e + 1 < paras.length
      · rw [ih (e + 1) (by omega) hnext]
        have hkey : (paras.drop start).take (e + 1 - start) ++ paras.drop (e + 1)
            = paras.drop start := by
          have hdd : paras.drop (e + 1) = (paras.drop start).drop (e + 1 - start) := by
            rw [List.drop_drop]
            congr 1
            omega
          rw [hdd]
          exact List.take_append_drop _ _
        rw [hkey]
      · rw [splitRangesAux]
        simp only [hnext, if_false, List.map_nil, List.flatten_nil, List.append_nil]
        have h1 : e + 1 - start = paras.length - start := by omega
        rw [h1]
        rw [List.take_of_length_le (by simp)]

theorem splitByParagraphs_ok (paras : List Paragraph) (ranges : List ParagraphRange)
    (h : ∀ r ∈ ranges, r.endIdx < paras.length ∧ r.start ≤ r.endIdx) :
    splitDOCXByParagraphs paras ranges =
      .ok (ranges.map (fun r => (paras.drop r.start).take (r.endIdx + 1 - r.start))) := by
  unfold splitDOCXByParagraphs
  induction ranges with
  | nil => rfl
  | cons r rs ih =>
    have hr := h r (by simp)
    rw [List.mapM_cons]
    have hcond : (decide (r.endIdx < paras.length) && decide (r.start ≤ r.endIdx)) = true := by
      simp [hr.1, hr.2]
    simp only [hcond, if_true]
    rw [ih (fun q hq => h q (by simp [hq]))]
    rfl

/-! ## Claim theorems -/

/-- C1.  The claim asserts clone independence; the code violates it.
`Clone` copies the Paragraph structs with `copy`, so the clone's paragraphs
keep the very slice headers of the original and share the run/text backing
arrays.  Evaluated at the failing input: a document with one paragraph
`Hello {{.Name}}` is cloned, and Render's substitution writes
`Hello World` into the clone's text fragment in place; observed through the
UNTOUCHED original paragraph (same document value `c1Doc` in both
conjuncts), the text has changed from `Hello {{.Name}}` to `Hello World`. -/
theorem clone_shares_run_storage :
    heapParagraphText c1Heap0 (c1Doc.paragraphs.getD 0 { runsRef := 0 }) =
        helloTemplate ∧
      heapParagraphText c1Heap1 (c1Doc.paragraphs.getD 0 { runsRef := 0 }) =
        "Hello World" := by
  exact ⟨rfl, rfl⟩

/-- C3.  The claim says `New()` sets both counters to 1 and `Open`
re-derives them; in the code, `New()` assigns neither field of the struct
literal and `Open` never calls `initializeImageID` or
`initializeRelationshipID` (no caller of either exists in the repository),
so both counters hold Go's zero value 0 after `New()` and after any `Open`.
The last two conjuncts record that the never-called initializers would
produce exactly the claimed value 1 on a fresh document. -/
theorem new_open_counters_zero :
    docxNew.nextImageID = 0 ∧ docxNew.nextRelationshipID = 0 ∧
    (∀ path body rels cts media,
      (docxOpen path body rels cts media).nextImageID = 0 ∧
      (docxOpen path body rels cts media).nextRelationshipID = 0) ∧
    (initImageID docxNew).nextImageID = 1 ∧
    (initRelationshipID docxNew).nextRelationshipID = 1 := by
  exact ⟨rfl, rfl, fun _ _ _ _ _ => ⟨rfl, rfl⟩, rfl, rfl⟩

/-- C4.  The claim says every numeric zero evaluates to false.  Because the
multi-type cases of the switch keep `v` at type `interface{}` and compare it
against the constant `0` (dynamic type `int`) resp. `0.0` (`float64`),
every zero of a different numeric type compares unequal and evaluates to
TRUE: so for `int8(0)`, `int16(0)`, `int64(0)`, `uint(0)`, `uint32(0)` and
`float32(0)` the code yields true where the claim demands false.  Only
`int(0)` and `float64(0)` (and the claimed nil/bool/string cases, also
evaluated below) behave as claimed. -/
theorem condition_zero_nonint_true :
    evaluateCondition (.int8 0) = true ∧
    evaluateCondition (.int16 0) = true ∧
    evaluateCondition (.int64 0) = true ∧
    evaluateCondition (.uint 0) = true ∧
    evaluateCondition (.uint32 0) = true ∧
    evaluateCondition (.float32 0) = true ∧
    evaluateCondition (.int 0) = false ∧
    evaluateCondition (.float64 0) = false ∧
    evaluateCondition .nil = false ∧
    evaluateCondition (.bool false) = false ∧
    evaluateCondition (.str "") = false ∧
    evaluateCondition (.str "false") = false ∧
    evaluateCondition (.str "0") = false ∧
    evaluateCondition (.str "yes") = true := by
  exact ⟨rfl, rfl, rfl, rfl, rfl, rfl, rfl, rfl, rfl, rfl, rfl, rfl, rfl, rfl⟩

/-- C5.  The claim says a dot-path placeholder `{{.A.B}}` is substituted
whenever the path resolves.  The variable regex's capture class
`[a-zA-Z0-9_]+` cannot match a dot, so `{{.A.B}}` is never found:
rendering the paragraph returns it unchanged (second conjunct shows the
same in strict mode — not even an error is raised), although
`getValueFromData` does resolve the path `A.B` to `x` (third conjunct) and
a single-component `{{.Name}}` in the same position is substituted (fourth
conjunct). -/
theorem dot_path_not_replaced :
    renderParas c5Data lenientOpts [c5ParaAB] = .ok [c5ParaAB] ∧
    renderParas c5Data { lenientOpts with strictMode := true } [c5ParaAB] =
      .ok [c5ParaAB] ∧
    getValueFromData c5Data "A.B" = .ok (.str "x") ∧
    renderParas [("Name", .str "World")] lenientOpts
      [textParagraph helloTemplate] = .ok [textParagraph "Hello World"] := by
  exact ⟨rfl, rfl, rfl, rfl⟩

/-- C7 (counterexample).  The claim says an unterminated `{{range .X}}`
always makes Render fail with a no-matching-end error, for ALL data and
both modes.  In lenient mode with `X` absent from the data, `processLoop`
returns before it ever scans for `{{end}}`, and Render succeeds: a document
consisting of just the unterminated directive renders to the empty document
without error. -/
theorem unterminated_range_lenient_ok :
    renderParas [] lenientOpts [textParagraph (rangeDirText "X")] =
      .ok [] := by
  exact rfl

/-- C7 (amended).  When the directive's variable DOES resolve in the data,
an opening `{{range .X}}` (first part) or `{{if .X}}` (second part; reached
when the paragraph does not contain `{{range`) with no later paragraph
containing `{{end}}` makes Render fail with the corresponding
`no matching {{end}}` error, wrapped with the paragraph position — in both
strict and lenient modes (`opts` is arbitrary). -/
theorem unterminated_block_fails (data : Data) (opts : RenderOptions)
    (dir : Paragraph) (rest : List Paragraph) (X : String) (v : GoValue)
    (hnoend : ∀ q ∈ rest, goContains (extractParagraphText q) tokEnd = false) :
    (findRangeName (extractParagraphText dir) = some X →
      getValueFromData data X = .ok v →
      renderParas data opts (dir :: rest) = .error (loopWrapMsg 0 rangeNoEndMsg)) ∧
    (goContains (extractParagraphText dir) tokRange = false →
      findIfName (extractParagraphText dir) = some X →
      getValueFromData data X = .ok v →
      renderParas data opts (dir :: rest) = .error (condWrapMsg 0 ifNoEndMsg)) := by
  have hend := findIdxAux_eq_none_of
    (fun q => goContains (extractParagraphText q) tokEnd) rest hnoend
  constructor
  · intro hdir hok
    have hcont := goContains_tokRange_of_findRangeName _ _ hdir
    unfold renderParas
    have hfuel : (dir :: rest).length = rest.length + 1 := rfl
    rw [hfuel, renderParasFuel]
    simp only [hcont, if_true, processLoop, hdir, hok, hend]
  · intro hnr hif hok
    have hcont := goContains_tokIf_of_findIfName _ _ hif
    unfold renderParas
    have hfuel : (dir :: rest).length = rest.length + 1 := rfl
    rw [hfuel, renderParasFuel]
    simp only [hnr, hcont, if_true, Bool.false_eq_true, if_false,
      processConditional, hif, hok, processCondBranches, hend]

/-- C7 (witness): a resolvable (empty) collection, an unterminated range
and a body paragraph, under default (lenient) options: Render fails with
the wrapped no-matching-end error. -/
theorem unterminated_block_fails_witness :
    renderParas [("Items", GoValue.list [])] defaultRenderOptions
      (textParagraph (rangeDirText "Items") :: [textParagraph "body"]) =
      .error (loopWrapMsg 0 rangeNoEndMsg) :=
  (unterminated_block_fails [("Items", GoValue.list [])] defaultRenderOptions
    (textParagraph (rangeDirText "Items")) [textParagraph "body"] "Items"
    (GoValue.list []) (by decide)).1 rfl rfl

/-- C9.  In lenient mode, a `{{range .X}}` directive whose collection X does
not resolve in the data is consumed alone: rendering the document starting
at the directive equals rendering the document without the directive
paragraph — processLoop returns `([], 1)` before scanning for `{{end}}`,
so the template-block paragraphs and the `{{end}}` paragraph stay and are
processed like any others, and no error is reported. -/
theorem lenient_missing_collection_skips_directive
    (data : Data) (opts : RenderOptions) (dir : Paragraph)
    (rest : List Paragraph) (X : String) (e : String)
    (hstrict : opts.strictMode = false)
    (hdir : findRangeName (extractParagraphText dir) = some X)
    (hmiss : getValueFromData data X = .error e) :
    renderParas data opts (dir :: rest) = renderParas data opts rest := by
  have hcont := goContains_tokRange_of_findRangeName _ _ hdir
  unfold renderParas
  have hfuel : (dir :: rest).length = rest.length + 1 := rfl
  rw [hfuel, renderParasFuel]
  simp only [hcont, if_true, processLoop, hdir, hmiss, hstrict]
  simp only [Bool.false_eq_true, if_false, List.length_nil, Nat.add_zero,
    Nat.sub_self, List.drop_zero, Nat.lt_irrefl, Nat.zero_lt_one]
  cases h : renderParasFuel data opts rest.length 0 rest <;> simp

/-- C6 (counterexample).  The claim's equation `AddedLines + UnchangedLines
= |new|` fails as soon as the inputs share a line: comparing the one-line
document `a` with itself yields all-zero statistics, so the sum is 0 while
`|new| = 1`. -/
theorem diff_conservation_counterexample :
    ¬ ((compareDocs defaultDiffOptions "old.docx" "new.docx"
          [textParagraph "a"] [textParagraph "a"]).stats.addedLines
        + (compareDocs defaultDiffOptions "old.docx" "new.docx"
          [textParagraph "a"] [textParagraph "a"]).stats.unchangedLines
      = ([textParagraph "a"] : List Paragraph).length) := by
  decide

/-- C6 (amended).  Unchanged line pairs produce no Change entry and
`calculateStats` has no case incrementing UnchangedLines, which is
therefore always 0; the conservation laws hold with the number of pairs the
backtrack matches as unchanged (`unreportedUnchanged`) in its place:
AddedLines + U = |new| and DeletedLines + U = |old|, and
Stats.UnchangedLines = 0. -/
theorem diff_conservation_matched (opts : DiffOptions) (oldPath newPath : String)
    (oldParas newParas : List Paragraph) :
    (compareDocs opts oldPath newPath oldParas newParas).stats.addedLines
        + unreportedUnchanged opts (extractLines oldParas) (extractLines newParas)
      = newParas.length ∧
    (compareDocs opts oldPath newPath oldParas newParas).stats.deletedLines
        + unreportedUnchanged opts (extractLines oldParas) (extractLines newParas)
      = oldParas.length ∧
    (compareDocs opts oldPath newPath oldParas newParas).stats.unchangedLines = 0 := by
  have h := backtrack_counts opts (extractLines oldParas) (extractLines newParas)
    ((extractLines oldParas).length + (extractLines newParas).length)
    (extractLines oldParas).length (extractLines newParas).length (le_refl _)
  have hlo : (extractLines oldParas).length = oldParas.length := by
    simp [extractLines]
  have hln : (extractLines newParas).length = newParas.length := by
    simp [extractLines]
  unfold compareDocs computeDiff unreportedUnchanged
  rw [calculateStats_spec]
  simp only []
  rw [hlo, hln] at h ⊢
  exact ⟨h.1, h.2, trivial⟩

/-- C8 (counterexample).  The claim quantifies over every document; for the
empty document, SplitDOCXByCount refuses to split at all (so the pipeline
yields no document whose count could equal P = 0). -/
theorem split_count_empty_doc_errors :
    splitDOCXByCount ([] : List Paragraph) 1 =
      .error "document has no paragraphs" := by
  exact rfl

/-- C8 (amended).  For every NON-EMPTY document and every k ≥ 1, splitting
by count and merging all the parts in order with page breaks and separators
disabled yields a document with the original paragraph count (in fact the
original paragraph list: the generated ranges partition the document). -/
theorem split_merge_count (paras : List Paragraph) (k : Nat) (opts : MergeOptions)
    (hk : k ≠ 0) (hp : paras ≠ [])
    (hs : opts.addSeparator = false) (hpb : opts.addPageBreaks = false) :
    ∃ parts merged, splitDOCXByCount paras k = .ok parts ∧
      mergeDOCX parts opts = .ok merged ∧ merged.length = paras.length := by
  have hlen : 0 < paras.length := by
    cases paras with
    | nil => exact absurd rfl hp
    | cons a l => simp
  unfold splitDOCXByCount
  simp only [hk, if_false]
  have hlz : ¬ (paras.length = 0) := by omega
  simp only [hlz, if_false]
  have hpp : 1 ≤ (if paras.length / k = 0 then 1 else paras.length / k) := by
    by_cases h0 : paras.length / k = 0
    · simp [h0]
    · simp only [h0, if_false]
      exact Nat.one_le_iff_ne_zero.mpr h0
  have hvalid := splitRangesAux_valid paras.length
    (if paras.length / k = 0 then 1 else paras.length / k) hpp k 0
  have hcover := splitRangesAux_cover paras
    (if paras.length / k = 0 then 1 else paras.length / k) hpp k 0
    (Nat.one_le_iff_ne_zero.mpr hk) hlen
  rw [splitByParagraphs_ok paras _ hvalid]
  refine ⟨_, paras, rfl, ?_, rfl⟩
  have hne : (splitRangesAux paras.length
      (if paras.length / k = 0 then 1 else paras.length / k) k 0) ≠ [] := by
    obtain ⟨k', rfl⟩ := Nat.exists_eq_succ_of_ne_zero hk
    rw [splitRangesAux]
    simp [hlen]
  unfold mergeDOCX
  have hne2 : (((splitRangesAux paras.length
      (if paras.length / k = 0 then 1 else paras.length / k) k 0).map
      (fun r => (paras.drop r.start).take (r.endIdx + 1 - r.start))).isEmpty) = false := by
    cases hx : splitRangesAux paras.length
      (if paras.length / k = 0 then 1 else paras.length / k) k 0 with
    | nil => exact absurd hx hne
    | cons a l => simp
  simp only [hne2, Bool.false_eq_true, if_false]
  rw [mergeLoop_plain opts hs hpb]
  rw [hcover]
  simp

/-- C8 (witness): a three-paragraph document split into 2 parts and merged
back without markers has 3 paragraphs again. -/
theorem split_merge_count_witness :
    ∃ parts merged, splitDOCXByCount c8Paras 2 = .ok parts ∧
      mergeDOCX parts c8Opts = .ok merged ∧ merged.length = c8Paras.length :=
  split_merge_count c8Paras 2 c8Opts (by decide) (by decide) rfl rfl

/-- C10.  With AddSeparator set, MergeDOCX inserts one separator paragraph
and one empty paragraph before every input after the first, so the output
paragraph count is the inputs' total plus `2*(n-1)`, plus one more per
boundary when AddPageBreaks is also set. -/
theorem merge_separator_count (docs : List (List Paragraph)) (opts : MergeOptions)
    (hsep : opts.addSeparator = true) (hn : 2 ≤ docs.length) :
    ∃ merged, mergeDOCX docs opts = .ok merged ∧
      merged.length = sumLens docs + 2 * (docs.length - 1)
        + (if opts.addPageBreaks then docs.length - 1 else 0) := by
  have hne : docs.isEmpty = false := by
    cases docs with
    | nil => simp at hn
    | cons a l => simp
  refine ⟨mergeLoop opts true docs, ?_, ?_⟩
  · unfold mergeDOCX
    simp only [hne, Bool.false_eq_true, if_false]
  · rw [mergeLoop_length]
    simp only [hsep, if_true]
    by_cases hpb : opts.addPageBreaks <;> simp [hpb] <;> omega

/-- C10 (witness): merging two one-paragraph documents with the separator
enabled and page breaks off yields 1 + 1 + 2 = 4 paragraphs. -/
theorem merge_separator_count_witness :
    ∃ merged, mergeDOCX c10Docs c10Opts = .ok merged ∧
      merged.length = sumLens c10Docs + 2 * (c10Docs.length - 1)
        + (if c10Opts.addPageBreaks then c10Docs.length - 1 else 0) :=
  merge_separator_count c10Docs c10Opts rfl (by decide)

/-- C9 (witness): `{{range .Items}}` over empty data followed by a template
paragraph `{{.Item.Name}}` and a literal `{{end}}` paragraph, in lenient
mode: rendering equals rendering without the directive, and both paragraphs
remain verbatim in the output. -/
theorem lenient_missing_collection_skips_directive_witness :
    renderParas [] lenientOpts
        (textParagraph (rangeDirText "Items") ::
          [textParagraph (itemPlaceholder "Name"), textParagraph tokEnd]) =
      renderParas [] lenientOpts
        [textParagraph (itemPlaceholder "Name"), textParagraph tokEnd] ∧
    renderParas [] lenientOpts
        [textParagraph (itemPlaceholder "Name"), textParagraph tokEnd] =
      .ok [textParagraph (itemPlaceholder "Name"), textParagraph tokEnd] :=
  ⟨lenient_missing_collection_skips_directive [] lenientOpts
      (textParagraph (rangeDirText "Items"))
      [textParagraph (itemPlaceholder "Name"), textParagraph tokEnd]
      "Items" "key Items not found" rfl rfl rfl,
    rfl⟩

/-- C2 (counterexample): the original claim quantifies over any Document,
including ones loaded with `Open`.  There both counters hold 0 (claim C3),
so on `c2OpenDoc` — whose relationship part already carries the styles
entry `rId1`, as every real document's does — the second image is
allocated relationship id 1; the `strings.Contains` guard of
`addImageRelationship` finds `rId1` present and silently skips the new
entry.  Both AddImage calls validate and succeed, yet the only
relationship entry matching the second Drawing's rId is the styles one:
wrong type, wrong target — image coherence fails. -/
theorem image_coherence_open_counterexample :
    validateImageData ".png" c2png = true ∧
    ¬ ImageCoherence
        ([ImageOp.add ".png" c2png, ImageOp.add ".png" c2png].foldl
          applyImageOp c2OpenDoc) := by
  refine ⟨by decide, ?_⟩
  rw [c2final_eq]
  intro h
  have h2 := (h.1 ⟨1, 1, ".png"⟩ (by decide)).2.1 stylesRel (by decide)
    (by decide)
  exact absurd h2.1 (by decide)

/-- C2 (amended): after any sequence of AddImage/AddImageAt calls on a
document created by `New()` (calls whose validation or bounds check fails
leave the document untouched, so the sequence covers exactly the
successful calls), every Drawing of the body has exactly one relationship
entry with its rId — of image type, targeting `media/imageN.ext`, the
media file name without the `word/` prefix — exactly one payload in the
files map at `word/media/imageN.ext`, and a content-type entry for its
extension; and both counters strictly exceed every id in use.  For a
document loaded with `Open` the invariant fails (see the counterexample):
the uninitialized counters collide with pre-existing rIds and the Contains
guard then drops the new relationship. -/
theorem image_coherence_after_ops (ops : List ImageOp) :
    ImageCoherence (ops.foldl applyImageOp docxNew) :=
  imageCoherence_of_docInv _ (docInv_foldl ops docxNew docInv_new)

end DocxSmith
